import Mathlib

/-!
Verification development for the two-node battery discharge tester
(crates `battery_tester_common`, `battery_tester_microbit`, `battery_tester_pc`).

Shallow embedding conventions:
* Rust `u16`/`u64` fields are modelled as `Nat`; where the machine width
  matters (wrapping arithmetic, casts) the reduction `% 2 ^ 16` / `% 2 ^ 64`
  is written explicitly at the operation that wraps.
* Fallible Rust code returns `Option`/`Except`; a Rust `unwrap` panic is a
  distinguished constructor of the result type.
* Async loops become step functions over explicit event types: each arm of a
  `select`/`select3` is one event.
-/

namespace BatteryTester

/-! ### Common wire types (battery_tester_common/src/lib.rs)

`MilliAmp` and `MilliVolt` are `u16` newtypes in the source; they are
modelled as `Nat` carrying the `< 2 ^ 16` bound in well-formedness
predicates.  All enums below list their variants in source order, which
fixes the serde discriminants used by the postcard encoding. -/

inductive LoadState | off | on
deriving DecidableEq, Repr

inductive Reset | no | yes
deriving DecidableEq, Repr

inductive ClearFault | no | yes
deriving DecidableEq, Repr

inductive AllowUndercurrent | no | yes
deriving DecidableEq, Repr

structure BiCommand where
  load : LoadState
  reset : Reset
  clear_fault : ClearFault
  allow_undercurrent : AllowUndercurrent
deriving DecidableEq, Repr

inductive TiwmError
  | txBufferTooLong | rxBufferTooLong | transmit | receive
  | ramBufferTooSmall | addressNack | dataNack | overrun | timeout | unknown
deriving DecidableEq, Repr

inductive I2CError
  | inaVinCurrent (e : TiwmError)
  | inaVinVoltage (e : TiwmError)
  | inaVinConfig (e : TiwmError)
  | inaVinId (e : TiwmError)
deriving DecidableEq, Repr

inductive FaultKind
  | i2c (e : I2CError)
  | undercurrent
  | noBattery
  | overcurrent
deriving DecidableEq, Repr

instance {ε α : Type} [DecidableEq ε] [DecidableEq α] :
    DecidableEq (Except ε α) := fun a b =>
  match a, b with
  | .ok x, .ok y =>
    match decEq x y with
    | isTrue h => isTrue (by rw [h])
    | isFalse h => isFalse (by intro hc; cases hc; exact h rfl)
  | .error x, .error y =>
    match decEq x y with
    | isTrue h => isTrue (by rw [h])
    | isFalse h => isFalse (by intro hc; cases hc; exact h rfl)
  | .ok _, .error _ => isFalse (by intro h; cases h)
  | .error _, .ok _ => isFalse (by intro h; cases h)

structure Fault where
  kind : FaultKind
  time : Nat
deriving DecidableEq, Repr

structure Measurement where
  vbat : Nat
  ibat : Nat
  t : Nat
deriving DecidableEq, Repr

/-- Models `Result<(), Fault>`: `ok` is `Ok(())`, `err f` is `Err(f)`.
The serde derive treats `Result` as a two-variant enum, `Ok` having
discriminant 0 and `Err` discriminant 1. -/
inductive FaultStatus
  | ok
  | err (f : Fault)
deriving DecidableEq, Repr

structure BIReply where
  measurement : Option Measurement
  fault : FaultStatus
deriving DecidableEq, Repr

def wfMeasurement (m : Measurement) : Prop :=
  m.vbat < 2 ^ 16 ∧ m.ibat < 2 ^ 16 ∧ m.t < 2 ^ 64

def wfFault (f : Fault) : Prop := f.time < 2 ^ 64

def wfFaultStatus : FaultStatus → Prop
  | .ok => True
  | .err f => wfFault f

def wfOptMeasurement : Option Measurement → Prop
  | none => True
  | some m => wfMeasurement m

def wfBIReply (r : BIReply) : Prop :=
  wfOptMeasurement r.measurement ∧ wfFaultStatus r.fault

instance : DecidablePred wfMeasurement := fun m => by
  unfold wfMeasurement; infer_instance

instance : DecidablePred wfFault := fun f => by
  unfold wfFault; infer_instance

instance : (s : FaultStatus) → Decidable (wfFaultStatus s) := fun s => by
  cases s <;> simp [wfFaultStatus] <;> infer_instance

instance : (o : Option Measurement) → Decidable (wfOptMeasurement o) := fun o => by
  cases o <;> simp [wfOptMeasurement] <;> infer_instance

instance : DecidablePred wfBIReply := fun r => by
  unfold wfBIReply; infer_instance

/-! ### Postcard varint primitives

Postcard encodes `u16`/`u32`/`u64` (and enum discriminants, as `u32`) as
LEB128-style varints: seven value bits per byte, the high bit set on every
byte except the last.  The decoder (`try_take_varint_*` in postcard's
`de/deserializer.rs`) reads at most `varint_max` bytes, ORs each 7-bit group
into a `w`-bit register (bits shifted above `w` are discarded, modelled by
`% 2 ^ w` below; the groups occupy disjoint bit ranges so the addition
equals the bitwise OR), and rejects a final byte exceeding
`max_of_last_byte`. -/

/-- Number of bytes of a maximal `w`-bit varint (`varint_max` in postcard). -/
def varintMax (w : Nat) : Nat := (w + 6) / 7

/-- Largest admissible value of the last byte of a maximal-length `w`-bit
varint (`max_of_last_byte` in postcard). -/
def maxOfLastByte (w : Nat) : Nat := (2 ^ w - 1) / 2 ^ (7 * (varintMax w - 1))

/-- Varint encoder (postcard `ser/serializer.rs`, `try_push_varint_*`). -/
def encVarint (n : Nat) : List Nat :=
  if _h : n < 128 then [n] else (n % 128 + 128) :: encVarint (n / 128)
decreasing_by exact Nat.div_lt_self (by omega) (by norm_num)

/-- Varint decoder loop: `fuel` counts the bytes still allowed, `i` the
bytes already consumed, `acc` the value assembled so far. -/
def takeVarintAux (w : Nat) : Nat → Nat → Nat → List Nat → Option (Nat × List Nat)
  | 0, _, _, _ => none
  | _ + 1, _, _, [] => none
  | fuel + 1, i, acc, b :: rest =>
    let acc' := (acc + b % 128 * 2 ^ (7 * i)) % 2 ^ w
    if b < 128 then
      if fuel = 0 ∧ maxOfLastByte w < b then none else some (acc', rest)
    else
      takeVarintAux w fuel (i + 1) acc' rest

/-- Varint decoder for a `w`-bit integer (`try_take_varint_*`). -/
def takeVarint (w : Nat) (bytes : List Nat) : Option (Nat × List Nat) :=
  takeVarintAux w (varintMax w) 0 0 bytes

theorem takeVarintAux_cons (w fuel i acc b : Nat) (rest : List Nat) :
    takeVarintAux w (fuel + 1) i acc (b :: rest) =
      (let acc' := (acc + b % 128 * 2 ^ (7 * i)) % 2 ^ w
      if b < 128 then
        if fuel = 0 ∧ maxOfLastByte w < b then none else some (acc', rest)
      else
        takeVarintAux w fuel (i + 1) acc' rest) := rfl

theorem takeVarintAux_enc (w : Nat) (hw : w < 7 * varintMax w) :
    ∀ fuel i acc n rest, 1 ≤ fuel → i + fuel = varintMax w →
      acc < 2 ^ (7 * i) →
      acc + n * 2 ^ (7 * i) < 2 ^ w →
      takeVarintAux w fuel i acc (encVarint n ++ rest) =
        some (acc + n * 2 ^ (7 * i), rest) := by
  intro fuel
  induction fuel with
  | zero => intro i acc n rest h1 _ _ _; omega
  | succ fuel ih =>
    intro i acc n rest _h1 hfi hacc hbound
    rw [encVarint]
    by_cases hn : n < 128
    · rw [dif_pos hn]
      simp only [List.cons_append, List.nil_append]
      have hmod : (acc + n % 128 * 2 ^ (7 * i)) % 2 ^ w
          = acc + n * 2 ^ (7 * i) := by
        rw [Nat.mod_eq_of_lt hn, Nat.mod_eq_of_lt hbound]
      rw [takeVarintAux_cons]
      simp only [hmod, if_pos hn]
      have hlast : ¬ (fuel = 0 ∧ maxOfLastByte w < n) := by
        rintro ⟨hf0, hlt⟩
        subst hf0
        have hieq : 7 * (varintMax w - 1) = 7 * i := by omega
        have hle : n ≤ maxOfLastByte w := by
          unfold maxOfLastByte
          rw [hieq]
          have hpos : 0 < 2 ^ (7 * i) := Nat.pos_pow_of_pos _ (by norm_num)
          rw [Nat.le_div_iff_mul_le hpos]
          omega
        omega
      rw [if_neg hlast]
    · rw [dif_neg hn]
      simp only [List.cons_append]
      have hb : ¬ (n % 128 + 128 < 128) := by omega
      rw [takeVarintAux_cons]
      simp only [if_neg hb]
      have hstep : 2 ^ (7 * (i + 1)) = 2 ^ (7 * i) * 128 := by
        rw [Nat.mul_add, pow_add]; norm_num
      have hsplit : n % 128 * 2 ^ (7 * i) + n / 128 * 2 ^ (7 * (i + 1))
          = n * 2 ^ (7 * i) := by
        rw [hstep]
        have : n % 128 + 128 * (n / 128) = n := Nat.mod_add_div n 128
        nlinarith [this]
      have hmod2 : (n % 128 + 128) % 128 = n % 128 := by omega
      have hacc' : acc + n % 128 * 2 ^ (7 * i) < 2 ^ w := by
        have : n % 128 ≤ n := Nat.mod_le n 128
        nlinarith [Nat.pos_pow_of_pos (7 * i) (show 0 < 2 by norm_num)]
      have hmod3 : (acc + (n % 128 + 128) % 128 * 2 ^ (7 * i)) % 2 ^ w
          = acc + n % 128 * 2 ^ (7 * i) := by
        rw [hmod2, Nat.mod_eq_of_lt hacc']
      rw [hmod3]
      have hfuel2 : 1 ≤ fuel := by
        by_contra hf
        have hf0 : fuel = 0 := by omega
        subst hf0
        have h128 : (128 : Nat) ≤ n := by omega
        have hgt : 2 ^ (7 * (i + 1)) ≤ n * 2 ^ (7 * i) := by
          rw [hstep]
          nlinarith [Nat.pos_pow_of_pos (7 * i) (show 0 < 2 by norm_num)]
        have hlt : 2 ^ (7 * (i + 1)) < 2 ^ w := by omega
        have hle7 : 7 * (i + 1) < w := by
          by_contra hcon
          have : 2 ^ w ≤ 2 ^ (7 * (i + 1)) :=
            Nat.pow_le_pow_right (by norm_num) (by omega)
          omega
        omega
      have hrec := ih (i + 1) (acc + n % 128 * 2 ^ (7 * i)) (n / 128) rest
        hfuel2 (by omega)
        (by
          have : n % 128 ≤ 127 := by omega
          calc acc + n % 128 * 2 ^ (7 * i)
              < 2 ^ (7 * i) + 127 * 2 ^ (7 * i) := by
                have := Nat.mul_le_mul_right (2 ^ (7 * i)) this
                omega
            _ = 2 ^ (7 * (i + 1)) := by rw [hstep]; ring)
        (by omega)
      rw [hrec]
      have hfin : acc + n % 128 * 2 ^ (7 * i) + n / 128 * 2 ^ (7 * (i + 1))
          = acc + n * 2 ^ (7 * i) := by omega
      rw [hfin]

theorem takeVarint_enc (w n : Nat) (hw : w < 7 * varintMax w)
    (hn : n < 2 ^ w) (rest : List Nat) :
    takeVarint w (encVarint n ++ rest) = some (n, rest) := by
  have hfuel : 1 ≤ varintMax w := by
    by_contra h
    have : varintMax w = 0 := by omega
    rw [this] at hw
    omega
  have := takeVarintAux_enc w hw (varintMax w) 0 0 n rest hfuel (by omega)
    (by norm_num) (by simpa using hn)
  simpa [takeVarint] using this

theorem takeVarint16_enc (n : Nat) (hn : n < 2 ^ 16) (rest : List Nat) :
    takeVarint 16 (encVarint n ++ rest) = some (n, rest) :=
  takeVarint_enc 16 n (by norm_num [varintMax]) hn rest

theorem takeVarint32_enc (n : Nat) (hn : n < 2 ^ 32) (rest : List Nat) :
    takeVarint 32 (encVarint n ++ rest) = some (n, rest) :=
  takeVarint_enc 32 n (by norm_num [varintMax]) hn rest

theorem takeVarint64_enc (n : Nat) (hn : n < 2 ^ 64) (rest : List Nat) :
    takeVarint 64 (encVarint n ++ rest) = some (n, rest) :=
  takeVarint_enc 64 n (by norm_num [varintMax]) hn rest

theorem encVarint_small (n : Nat) (hn : n < 128) : encVarint n = [n] := by
  rw [encVarint]; simp [hn]

theorem takeVarint32_byte (b : Nat) (hb : b < 128) (rest : List Nat) :
    takeVarint 32 (b :: rest) = some (b, rest) := by
  have := takeVarint32_enc b (by omega) rest
  rwa [encVarint_small b hb] at this

theorem encVarint_length : ∀ k n, 1 ≤ k → n < 2 ^ (7 * k) →
    (encVarint n).length ≤ k := by
  intro k
  induction k with
  | zero => intro n h _; omega
  | succ k ih =>
    intro n _ hn
    rw [encVarint]
    by_cases h : n < 128
    · rw [dif_pos h]; simp
    · rw [dif_neg h]
      simp only [List.length_cons]
      by_cases hk : 1 ≤ k
      · have hdiv : n / 128 < 2 ^ (7 * k) := by
          rw [Nat.div_lt_iff_lt_mul (by norm_num)]
          calc n < 2 ^ (7 * (k + 1)) := hn
            _ = 2 ^ (7 * k) * 128 := by rw [Nat.mul_add, pow_add]; norm_num
        have := ih (n / 128) hk hdiv
        omega
      · exfalso
        have hk0 : k = 0 := by omega
        subst hk0
        norm_num at hn
        omega

theorem encVarint_zero : encVarint 0 = [0] := encVarint_small 0 (by norm_num)
theorem encVarint_one : encVarint 1 = [1] := encVarint_small 1 (by norm_num)
theorem encVarint_two : encVarint 2 = [2] := encVarint_small 2 (by norm_num)
theorem encVarint_three : encVarint 3 = [3] := encVarint_small 3 (by norm_num)
theorem encVarint_four : encVarint 4 = [4] := encVarint_small 4 (by norm_num)
theorem encVarint_five : encVarint 5 = [5] := encVarint_small 5 (by norm_num)
theorem encVarint_six : encVarint 6 = [6] := encVarint_small 6 (by norm_num)
theorem encVarint_seven : encVarint 7 = [7] := encVarint_small 7 (by norm_num)
theorem encVarint_eight : encVarint 8 = [8] := encVarint_small 8 (by norm_num)
theorem encVarint_nine : encVarint 9 = [9] := encVarint_small 9 (by norm_num)

/-! ### Postcard encoding of `BiCommand` and `BIReply`

The serde derives on the wire types give each enum variant the discriminant
of its source position; postcard writes the discriminant as a `u32` varint,
then the variant payload.  `Option` is one raw byte `0`/`1` followed by the
payload; `Result` is a two-variant enum (`Ok` = 0, `Err` = 1) and `()`
serialises to nothing.  Decoders mirror postcard's deserializer, which
rejects unknown discriminants and bad option tags. -/

def encLoadState : LoadState → List Nat
  | .off => encVarint 0
  | .on => encVarint 1

def decLoadState (bs : List Nat) : Option (LoadState × List Nat) :=
  match takeVarint 32 bs with
  | none => none
  | some (d, rest) =>
    if d = 0 then some (.off, rest)
    else if d = 1 then some (.on, rest)
    else none

def encReset : Reset → List Nat
  | .no => encVarint 0
  | .yes => encVarint 1

def decReset (bs : List Nat) : Option (Reset × List Nat) :=
  match takeVarint 32 bs with
  | none => none
  | some (d, rest) =>
    if d = 0 then some (.no, rest)
    else if d = 1 then some (.yes, rest)
    else none

def encClearFault : ClearFault → List Nat
  | .no => encVarint 0
  | .yes => encVarint 1

def decClearFault (bs : List Nat) : Option (ClearFault × List Nat) :=
  match takeVarint 32 bs with
  | none => none
  | some (d, rest) =>
    if d = 0 then some (.no, rest)
    else if d = 1 then some (.yes, rest)
    else none

def encAllowUndercurrent : AllowUndercurrent → List Nat
  | .no => encVarint 0
  | .yes => encVarint 1

def decAllowUndercurrent (bs : List Nat) : Option (AllowUndercurrent × List Nat) :=
  match takeVarint 32 bs with
  | none => none
  | some (d, rest) =>
    if d = 0 then some (.no, rest)
    else if d = 1 then some (.yes, rest)
    else none

/-- Postcard encoding of `BiCommand`: the four field tags in declaration
order (`load`, `reset`, `clear_fault`, `allow_undercurrent`). -/
def encBiCommand (c : BiCommand) : List Nat :=
  encLoadState c.load ++ encReset c.reset ++ encClearFault c.clear_fault ++
    encAllowUndercurrent c.allow_undercurrent

def decBiCommand (bs : List Nat) : Option (BiCommand × List Nat) :=
  match decLoadState bs with
  | none => none
  | some (l, bs1) =>
    match decReset bs1 with
    | none => none
    | some (r, bs2) =>
      match decClearFault bs2 with
      | none => none
      | some (cf, bs3) =>
        match decAllowUndercurrent bs3 with
        | none => none
        | some (au, bs4) => some (⟨l, r, cf, au⟩, bs4)

def encTiwmError : TiwmError → List Nat
  | .txBufferTooLong => encVarint 0
  | .rxBufferTooLong => encVarint 1
  | .transmit => encVarint 2
  | .receive => encVarint 3
  | .ramBufferTooSmall => encVarint 4
  | .addressNack => encVarint 5
  | .dataNack => encVarint 6
  | .overrun => encVarint 7
  | .timeout => encVarint 8
  | .unknown => encVarint 9

def decTiwmError (bs : List Nat) : Option (TiwmError × List Nat) :=
  match takeVarint 32 bs with
  | none => none
  | some (d, rest) =>
    if d = 0 then some (.txBufferTooLong, rest)
    else if d = 1 then some (.rxBufferTooLong, rest)
    else if d = 2 then some (.transmit, rest)
    else if d = 3 then some (.receive, rest)
    else if d = 4 then some (.ramBufferTooSmall, rest)
    else if d = 5 then some (.addressNack, rest)
    else if d = 6 then some (.dataNack, rest)
    else if d = 7 then some (.overrun, rest)
    else if d = 8 then some (.timeout, rest)
    else if d = 9 then some (.unknown, rest)
    else none

def encI2CError : I2CError → List Nat
  | .inaVinCurrent e => encVarint 0 ++ encTiwmError e
  | .inaVinVoltage e => encVarint 1 ++ encTiwmError e
  | .inaVinConfig e => encVarint 2 ++ encTiwmError e
  | .inaVinId e => encVarint 3 ++ encTiwmError e

def decI2CError (bs : List Nat) : Option (I2CError × List Nat) :=
  match takeVarint 32 bs with
  | none => none
  | some (d, rest) =>
    if d ≤ 3 then
      match decTiwmError rest with
      | none => none
      | some (e, r) =>
        if d = 0 then some (.inaVinCurrent e, r)
        else if d = 1 then some (.inaVinVoltage e, r)
        else if d = 2 then some (.inaVinConfig e, r)
        else some (.inaVinId e, r)
    else none

def encFaultKind : FaultKind → List Nat
  | .i2c e => encVarint 0 ++ encI2CError e
  | .undercurrent => encVarint 1
  | .noBattery => encVarint 2
  | .overcurrent => encVarint 3

def decFaultKind (bs : List Nat) : Option (FaultKind × List Nat) :=
  match takeVarint 32 bs with
  | none => none
  | some (d, rest) =>
    if d = 0 then
      match decI2CError rest with
      | none => none
      | some (e, r) => some (.i2c e, r)
    else if d = 1 then some (.undercurrent, rest)
    else if d = 2 then some (.noBattery, rest)
    else if d = 3 then some (.overcurrent, rest)
    else none

def encFault (f : Fault) : List Nat :=
  encFaultKind f.kind ++ encVarint f.time

def decFault (bs : List Nat) : Option (Fault × List Nat) :=
  match decFaultKind bs with
  | none => none
  | some (k, bs1) =>
    match takeVarint 64 bs1 with
    | none => none
    | some (t, bs2) => some (⟨k, t⟩, bs2)

def encMeasurement (m : Measurement) : List Nat :=
  encVarint m.vbat ++ encVarint m.ibat ++ encVarint m.t

def decMeasurement (bs : List Nat) : Option (Measurement × List Nat) :=
  match takeVarint 16 bs with
  | none => none
  | some (v, bs1) =>
    match takeVarint 16 bs1 with
    | none => none
    | some (i, bs2) =>
      match takeVarint 64 bs2 with
      | none => none
      | some (t, bs3) => some (⟨v, i, t⟩, bs3)

def encOptMeasurement : Option Measurement → List Nat
  | none => [0]
  | some m => 1 :: encMeasurement m

def decOptMeasurement (bs : List Nat) : Option (Option Measurement × List Nat) :=
  match bs with
  | [] => none
  | b :: rest =>
    if b = 0 then some (none, rest)
    else if b = 1 then
      match decMeasurement rest with
      | none => none
      | some (m, r) => some (some m, r)
    else none

def encFaultStatus : FaultStatus → List Nat
  | .ok => encVarint 0
  | .err f => encVarint 1 ++ encFault f

def decFaultStatus (bs : List Nat) : Option (FaultStatus × List Nat) :=
  match takeVarint 32 bs with
  | none => none
  | some (d, rest) =>
    if d = 0 then some (.ok, rest)
    else if d = 1 then
      match decFault rest with
      | none => none
      | some (f, r) => some (.err f, r)
    else none

/-- Postcard encoding of `BIReply`: the optional measurement, then the
fault result. -/
def encBIReply (r : BIReply) : List Nat :=
  encOptMeasurement r.measurement ++ encFaultStatus r.fault

def decBIReply (bs : List Nat) : Option (BIReply × List Nat) :=
  match decOptMeasurement bs with
  | none => none
  | some (m, bs1) =>
    match decFaultStatus bs1 with
    | none => none
    | some (f, bs2) => some (⟨m, f⟩, bs2)

theorem decLoadState_enc (x : LoadState) (rest : List Nat) :
    decLoadState (encLoadState x ++ rest) = some (x, rest) := by
  cases x <;>
    simp [decLoadState, encLoadState, encVarint_zero, encVarint_one,
      takeVarint32_byte]

theorem decReset_enc (x : Reset) (rest : List Nat) :
    decReset (encReset x ++ rest) = some (x, rest) := by
  cases x <;>
    simp [decReset, encReset, encVarint_zero, encVarint_one, takeVarint32_byte]

theorem decClearFault_enc (x : ClearFault) (rest : List Nat) :
    decClearFault (encClearFault x ++ rest) = some (x, rest) := by
  cases x <;>
    simp [decClearFault, encClearFault, encVarint_zero, encVarint_one,
      takeVarint32_byte]

theorem decAllowUndercurrent_enc (x : AllowUndercurrent) (rest : List Nat) :
    decAllowUndercurrent (encAllowUndercurrent x ++ rest) = some (x, rest) := by
  cases x <;>
    simp [decAllowUndercurrent, encAllowUndercurrent, encVarint_zero,
      encVarint_one, takeVarint32_byte]

theorem decBiCommand_enc (c : BiCommand) (rest : List Nat) :
    decBiCommand (encBiCommand c ++ rest) = some (c, rest) := by
  simp [decBiCommand, encBiCommand, List.append_assoc, decLoadState_enc,
    decReset_enc, decClearFault_enc, decAllowUndercurrent_enc]

theorem decTiwmError_enc (x : TiwmError) (rest : List Nat) :
    decTiwmError (encTiwmError x ++ rest) = some (x, rest) := by
  cases x <;>
    simp [decTiwmError, encTiwmError, encVarint_zero, encVarint_one,
      encVarint_two, encVarint_three, encVarint_four, encVarint_five,
      encVarint_six, encVarint_seven, encVarint_eight, encVarint_nine,
      takeVarint32_byte]

theorem decI2CError_enc (x : I2CError) (rest : List Nat) :
    decI2CError (encI2CError x ++ rest) = some (x, rest) := by
  cases x <;>
    simp [decI2CError, encI2CError, List.append_assoc, encVarint_zero,
      encVarint_one, encVarint_two, encVarint_three, takeVarint32_byte,
      decTiwmError_enc]

theorem decFaultKind_enc (x : FaultKind) (rest : List Nat) :
    decFaultKind (encFaultKind x ++ rest) = some (x, rest) := by
  cases x <;>
    simp [decFaultKind, encFaultKind, List.append_assoc, encVarint_zero,
      encVarint_one, encVarint_two, encVarint_three, takeVarint32_byte,
      decI2CError_enc]

theorem decFault_enc (f : Fault) (hf : wfFault f) (rest : List Nat) :
    decFault (encFault f ++ rest) = some (f, rest) := by
  simp [decFault, encFault, List.append_assoc, decFaultKind_enc,
    takeVarint64_enc f.time hf]

theorem decMeasurement_enc (m : Measurement) (hm : wfMeasurement m)
    (rest : List Nat) :
    decMeasurement (encMeasurement m ++ rest) = some (m, rest) := by
  obtain ⟨h1, h2, h3⟩ := hm
  simp [decMeasurement, encMeasurement, List.append_assoc,
    takeVarint16_enc m.vbat h1, takeVarint16_enc m.ibat h2,
    takeVarint64_enc m.t h3]

theorem decOptMeasurement_enc (o : Option Measurement)
    (ho : wfOptMeasurement o) (rest : List Nat) :
    decOptMeasurement (encOptMeasurement o ++ rest) = some (o, rest) := by
  cases o with
  | none => simp [decOptMeasurement, encOptMeasurement]
  | some m =>
    simp [decOptMeasurement, encOptMeasurement,
      decMeasurement_enc m ho rest]

theorem decFaultStatus_enc (s : FaultStatus) (hs : wfFaultStatus s)
    (rest : List Nat) :
    decFaultStatus (encFaultStatus s ++ rest) = some (s, rest) := by
  cases s with
  | ok => simp [decFaultStatus, encFaultStatus, encVarint_zero, takeVarint32_byte]
  | err f =>
    simp [decFaultStatus, encFaultStatus, List.append_assoc, encVarint_one,
      takeVarint32_byte, decFault_enc f hs rest]

theorem decBIReply_enc (r : BIReply) (hr : wfBIReply r) (rest : List Nat) :
    decBIReply (encBIReply r ++ rest) = some (r, rest) := by
  obtain ⟨h1, h2⟩ := hr
  simp [decBIReply, encBIReply, List.append_assoc,
    decOptMeasurement_enc r.measurement h1,
    decFaultStatus_enc r.fault h2]

/-! Length bounds for the encodings. -/

theorem encVarint_le_three (n : Nat) (h : n < 2 ^ 16) :
    (encVarint n).length ≤ 3 :=
  encVarint_length 3 n (by norm_num) (by norm_num at h ⊢; omega)

theorem encVarint_le_ten (n : Nat) (h : n < 2 ^ 64) :
    (encVarint n).length ≤ 10 :=
  encVarint_length 10 n (by norm_num) (by norm_num at h ⊢; omega)

theorem encBiCommand_length (c : BiCommand) : (encBiCommand c).length = 4 := by
  obtain ⟨l, r, cf, au⟩ := c
  cases l <;> cases r <;> cases cf <;> cases au <;>
    simp [encBiCommand, encLoadState, encReset, encClearFault,
      encAllowUndercurrent, encVarint_zero, encVarint_one]

theorem encTiwmError_length (e : TiwmError) : (encTiwmError e).length = 1 := by
  cases e <;>
    simp [encTiwmError, encVarint_zero, encVarint_one, encVarint_two,
      encVarint_three, encVarint_four, encVarint_five, encVarint_six,
      encVarint_seven, encVarint_eight, encVarint_nine]

theorem encI2CError_length (e : I2CError) : (encI2CError e).length = 2 := by
  cases e <;>
    simp [encI2CError, encVarint_zero, encVarint_one, encVarint_two,
      encVarint_three, encTiwmError_length]

theorem encFaultKind_length (k : FaultKind) : (encFaultKind k).length ≤ 3 := by
  cases k <;>
    simp [encFaultKind, encVarint_zero, encVarint_one, encVarint_two,
      encVarint_three, encI2CError_length]

theorem encFault_length (f : Fault) (hf : wfFault f) :
    (encFault f).length ≤ 13 := by
  have h1 := encFaultKind_length f.kind
  have h2 := encVarint_le_ten f.time hf
  simp only [encFault, List.length_append]
  omega

theorem encMeasurement_length (m : Measurement) (hm : wfMeasurement m) :
    (encMeasurement m).length ≤ 16 := by
  obtain ⟨h1, h2, h3⟩ := hm
  have g1 := encVarint_le_three m.vbat h1
  have g2 := encVarint_le_three m.ibat h2
  have g3 := encVarint_le_ten m.t h3
  simp only [encMeasurement, List.length_append]
  omega

theorem encBIReply_length (r : BIReply) (hr : wfBIReply r) :
    (encBIReply r).length ≤ 31 := by
  obtain ⟨h1, h2⟩ := hr
  have g1 : (encOptMeasurement r.measurement).length ≤ 17 := by
    cases hm : r.measurement with
    | none => simp [encOptMeasurement]
    | some m =>
      rw [hm] at h1
      have := encMeasurement_length m h1
      simp only [encOptMeasurement, List.length_cons]
      omega
  have g2 : (encFaultStatus r.fault).length ≤ 14 := by
    cases hf : r.fault with
    | ok => simp [encFaultStatus, encVarint_zero]
    | err f =>
      rw [hf] at h2
      have := encFault_length f h2
      simp only [encFaultStatus, encVarint_one, List.length_append,
        List.length_cons]
      simp only [List.length_nil]
      omega
  simp only [encBIReply, List.length_append]
  omega

/-! ### PWM control and watchdog (battery_tester_microbit/src/pwm.rs)

Timestamps are embassy `Instant` millisecond values (`u64`), modelled as
`Nat`; the clock is monotone, so `Instant` subtraction never underflows in
any reachable call and is modelled by truncated `Nat` subtraction. -/

inductive HeaterCmd | off | on
deriving DecidableEq, Repr

structure PwmCtrl where
  cmd : HeaterCmd
  change_time : Nat
deriving DecidableEq, Repr

/-- Models `PwmCtrl::set_cmd` at instant `now`.  The duty-cycle write is
hardware I/O; the record keeps the commanded state, and the change
timestamp is refreshed exactly on an Off/On or On/Off transition. -/
def set_cmd (p : PwmCtrl) (new_cmd : HeaterCmd) (now : Nat) : PwmCtrl :=
  { cmd := new_cmd
    change_time :=
      match p.cmd, new_cmd with
      | .off, .on => now
      | .on, .off => now
      | _, _ => p.change_time }

inductive Range | hi | lo | ok
deriving DecidableEq, Repr

/-- Models `in_range_inclusive`: `x > max` is `Hi`, `x < min` is `Lo`,
otherwise `Ok`. -/
def in_range_inclusive (max min x : Nat) : Range :=
  if max < x then .hi else if x < min then .lo else .ok

/-- Models `expected_current`.  `R = TEST_MILLIVOLTS / IMPERICAL_MILLIAMPS
= 12000 / 8400` is a `u16` constant computed by integer division, so
`R = 1` and the expected current equals `vbat`. -/
def expected_current (vbat : Nat) : Nat :=
  vbat / (12000 / 8400)

/-- Models `current_in_range`.  The envelope bounds `nom + 200` and
`nom - 200` are `u16` arithmetic and wrap modulo `2 ^ 16` (release-build
overflow semantics). -/
def current_in_range (vbat ibat : Nat) : Range :=
  let nom := expected_current vbat
  let max := (nom + 200) % 2 ^ 16
  let min := (nom + 2 ^ 16 - 200) % 2 ^ 16
  in_range_inclusive max min ibat

/-- Models `PwmCtrl::watchdog` called at instant `now`.
`WAIT_MS = PWM_MS_PERIOD + HW_REACTION_MS = 20 + 5 = 25`; the check body
runs only when `dt > 25` ms. -/
def watchdog (p : PwmCtrl) (now : Nat) (millivolts milliamps : Nat)
    (allow_undercurrent : AllowUndercurrent) : Except FaultKind Unit :=
  let dt := now - p.change_time
  if 25 < dt then
    match p.cmd with
    | .off =>
      if 100 < milliamps then .error .overcurrent else .ok ()
    | .on =>
      match current_in_range millivolts milliamps with
      | .hi => .error .overcurrent
      | .lo =>
        match allow_undercurrent with
        | .no => .error .undercurrent
        | .yes => .ok ()
      | .ok => .ok ()
  else
    .ok ()

/-! ### DaqDataQueue (battery_tester_microbit/src/lib.rs) -/

structure DaqDataQueue where
  index : Nat
  start : Nat
  milliamps : List Nat
  millivolts : List Nat
deriving DecidableEq, Repr

/-- Models `DaqDataQueue::default_const` (index 0, start 0, ten zero
samples in each ring). -/
def DaqDataQueue.default_const : DaqDataQueue :=
  { index := 0
    start := 0
    milliamps := List.replicate 10 0
    millivolts := List.replicate 10 0 }

/-- Models `avg_milliamps`: the ten `u16` samples are summed as `u32`
(the sum of ten values below `2 ^ 16` cannot reach `2 ^ 32`, so the `u32`
register is written with an explicit `% 2 ^ 32`), divided by 10, and cast
back to `u16` with `as u16` (`% 2 ^ 16`). -/
def DaqDataQueue.avg_milliamps (q : DaqDataQueue) : Nat :=
  q.milliamps.foldr (fun a b => a + b) 0 % 2 ^ 32 / 10 % 2 ^ 16

def DaqDataQueue.avg_millivolts (q : DaqDataQueue) : Nat :=
  q.millivolts.foldr (fun a b => a + b) 0 % 2 ^ 32 / 10 % 2 ^ 16

/-- Models `DaqDataQueue::push` at instant `now` (the source reads
`Instant::now()` inside the method).  The returned triple is
`(avg millivolts, avg milliamps, (now + start) / 2)`; the timestamp sum is
`u64` arithmetic. -/
def DaqDataQueue.push (q : DaqDataQueue) (vin_milliamps vin_millivolts now : Nat) :
    DaqDataQueue × Option (Nat × Nat × Nat) :=
  let ma := q.milliamps.set q.index vin_milliamps
  let mv := q.millivolts.set q.index vin_millivolts
  if q.index = 9 then
    let q' := { q with index := 0, milliamps := ma, millivolts := mv }
    (q', some (q'.avg_millivolts, q'.avg_milliamps, (now + q.start) % 2 ^ 64 / 2))
  else if q.index = 0 then
    ({ q with index := 1, start := now, milliamps := ma, millivolts := mv }, none)
  else
    ({ q with index := q.index + 1, milliamps := ma, millivolts := mv }, none)

/-! ### BI Running loop (battery_tester_microbit/src/main.rs)

The inner loop of `power_ctrl_loop` waits on
`select3(daq_ticker.next(), CMD_CH.receive(), com_timeout_ticker.next())`;
each arm is one event of `RunEvent`.  The I²C read results and the levels
of the battery-present input sampled inside `daq` are environment data
carried by the DAQ-tick event.  The crates of the repository disagree on
the `Measurement` timestamp fields (`t` in `battery_tester_common`,
`dt`/`duration` at the call sites); the wire type of the common crate is
used, carrying the single timestamp produced by `DaqDataQueue::push`. -/

structure RunState where
  pwm : PwmCtrl
  measurement : Option Measurement
  allow_undercurrent : AllowUndercurrent
  daq_queue : DaqDataQueue
deriving DecidableEq, Repr

/-- Environment of one `daq` call: the battery-present level sampled
before and after the current read, the two I²C read results and the
instant of the call. -/
structure DaqEnv where
  bat_before : Bool
  amps : Except TiwmError Nat
  bat_after : Bool
  volts : Except TiwmError Nat
  now : Nat

inductive RunEvent
  | daqTick (env : DaqEnv)
  | cmdRecv (cmd : BiCommand) (now : Nat)
  | comTimeout (now : Nat)

inductive RunExit
  | fault (k : FaultKind)
  | reset
deriving DecidableEq, Repr

structure RunOut where
  state : RunState
  replies : List BIReply
  exit : Option RunExit

/-- Models `daq`: presence check, current read, presence check, voltage
read, watchdog, ring-buffer push (`main.rs` lines 250-285). -/
def daq (pwm : PwmCtrl) (q : DaqDataQueue) (allow : AllowUndercurrent)
    (env : DaqEnv) :
    Except FaultKind (DaqDataQueue × Option Measurement) :=
  if !env.bat_before then .error .noBattery
  else
    match env.amps with
    | .error e => .error (.i2c (.inaVinCurrent e))
    | .ok milliamps =>
      if !env.bat_after then .error .noBattery
      else
        match env.volts with
        | .error e => .error (.i2c (.inaVinVoltage e))
        | .ok millivolts =>
          match watchdog pwm env.now millivolts milliamps allow with
          | .error fk => .error fk
          | .ok _ =>
            let out := q.push milliamps millivolts env.now
            .ok (out.1, out.2.map (fun p => ⟨p.1, p.2.1, p.2.2⟩))

/-- One step of the `power_ctrl_loop` inner loop.  `exit = some (.fault k)`
models `return fk` (fault latched), `exit = some .reset` models the `break`
taken on `reset == Yes`. -/
def runningStep (s : RunState) : RunEvent → RunOut
  | .daqTick env =>
    match daq s.pwm s.daq_queue s.allow_undercurrent env with
    | .error fk => { state := s, replies := [], exit := some (.fault fk) }
    | .ok (q', out) =>
      match out with
      | some m =>
        { state := { s with daq_queue := q', measurement := some m }
          replies := []
          exit := none }
      | none =>
        { state := { s with daq_queue := q' }, replies := [], exit := none }
  | .cmdRecv cmd now =>
    let pwm1 :=
      match cmd.load with
      | .off => set_cmd s.pwm .off now
      | .on => set_cmd s.pwm .on now
    let reply : BIReply := { measurement := s.measurement, fault := .ok }
    match cmd.reset with
    | .yes =>
      { state := { s with pwm := set_cmd pwm1 .off now, measurement := none }
        replies := [reply]
        exit := some .reset }
    | .no =>
      { state :=
          { s with
            pwm := pwm1
            measurement := none
            allow_undercurrent := cmd.allow_undercurrent }
        replies := [reply]
        exit := none }
  | .comTimeout now =>
    { state := { s with pwm := set_cmd s.pwm .off now }
      replies := []
      exit := none }

/-! ### BI fault handling (main.rs: wait_fault_clear, wait_bat_present,
power_task)

After `power_ctrl_loop` returns a fault, `power_task` forces the heater
off, waits in `wait_fault_clear`, then in `wait_bat_present`, and only
then loops back to `i2c_init_loop`.  Each GPIO level/edge, ticker tick and
channel receive the `select`s wait on is one event of `PFEvent`; an event
that the current `select` does not wait on leaves the state unchanged. -/

inductive PFEvent
  | cmd (c : BiCommand)
  | btnFall
  | btnHigh
  | batHigh
  | batLow
  | tick1000
  | tick250
deriving DecidableEq, Repr

/-- States of `wait_fault_clear`: listening for a command or a
falling button edge, or debouncing a button hold. -/
inductive FCState
  | listen
  | debounce
  | done
deriving DecidableEq, Repr

/-- One step of `wait_fault_clear` (main.rs lines 287-343), with the
replies sent on `REPLY_CH`. -/
def fcStep (fault : Fault) : FCState → PFEvent → FCState × List BIReply
  | .listen, .cmd c =>
    match c.clear_fault with
    | .yes => (.done, [⟨none, .ok⟩])
    | .no => (.listen, [⟨none, .err fault⟩])
  | .listen, .btnFall => (.debounce, [])
  | .listen, _ => (.listen, [])
  | .debounce, .tick1000 => (.done, [⟨none, .ok⟩])
  | .debounce, .btnHigh => (.listen, [])
  | .debounce, .cmd c =>
    match c.clear_fault with
    | .yes => (.done, [⟨none, .ok⟩])
    | .no => (.debounce, [⟨none, .err fault⟩])
  | .debounce, _ => (.debounce, [])
  | .done, _ => (.done, [])

/-- States of `wait_bat_present`: waiting for the battery-present input to
be high, or debouncing a connection. -/
inductive WBState
  | waitHigh
  | debounce
  | done
deriving DecidableEq, Repr

/-- One step of `wait_bat_present` (main.rs lines 354-394).  Note that the
first phase waits on `wait_for_high`, which completes at once when the
input is already high: no disconnection is required. -/
def wbStep : WBState → PFEvent → WBState × List BIReply
  | .waitHigh, .batHigh => (.debounce, [])
  | .waitHigh, .cmd _ => (.waitHigh, [⟨none, .ok⟩])
  | .waitHigh, _ => (.waitHigh, [])
  | .debounce, .tick250 => (.done, [])
  | .debounce, .batLow => (.waitHigh, [])
  | .debounce, .cmd _ => (.debounce, [⟨none, .ok⟩])
  | .debounce, _ => (.debounce, [])
  | .done, _ => (.done, [])

/-- Phase of `power_task` after a fault was latched: `wait_fault_clear`,
then `wait_bat_present`, then back to `i2c_init_loop` (absorbing here). -/
inductive PFPhase
  | clearing (s : FCState)
  | waiting (s : WBState)
  | initI2C
deriving DecidableEq, Repr

def pfStep (fault : Fault) : PFPhase → PFEvent → PFPhase
  | .clearing s, e =>
    match (fcStep fault s e).1 with
    | .done => .waiting .waitHigh
    | .listen => .clearing .listen
    | .debounce => .clearing .debounce
  | .waiting s, e =>
    match (wbStep s e).1 with
    | .done => .initI2C
    | .waitHigh => .waiting .waitHigh
    | .debounce => .waiting .debounce
  | .initI2C, _ => .initI2C

def pfRun (fault : Fault) (p : PFPhase) : List PFEvent → PFPhase
  | [] => p
  | e :: t => pfRun fault (pfStep fault p e) t

/-! ### Host session data (battery_tester_pc/src/lib.rs) -/

structure BatteryID where
  year : Nat
  index : Nat
deriving DecidableEq, Repr

/-- Host session events (`Event` in lib.rs). -/
inductive Event
  | battID (id : BatteryID)
  | setSerialDevice (name : String)
  | setCutoff (mv : Nat)
  | startTest
  | commDc
  | comReply (r : BIReply)
  | cancelTest
  | shutdown
  | fileError
  | clearFault
  | underCurrentResponse (a : AllowUndercurrent)
deriving DecidableEq, Repr

/-- Host session modes (`Mode` in lib.rs). -/
inductive Mode
  | setup
  | waitForBattery
  | waitForUsrStart
  | testing
  | paused
  | shutdown
  | endTest
  | commDC
  | fault
deriving DecidableEq, Repr

/-- Record written to the output file.  The source struct `SaveData` also
splits the timestamp into two `u64` fields whose names disagree between
lib.rs (`dt`/`duration`) and server.rs (`t_start`/`duration`); the single
wire timestamp is carried here. -/
structure SaveData where
  millivolts : Nat
  milliamps : Nat
  t : Nat
deriving DecidableEq, Repr

inductive FileCmd
  | newFile
  | closeFile
  | shutdown
  | push (d : SaveData)
deriving DecidableEq, Repr

inductive ComCmd
  | newDeviceName (name : String)
  | biCommand (c : BiCommand)
  | shutdown
  | clearFault
deriving DecidableEq, Repr

/-- Models `TestState` (lib.rs lines 152-221). -/
structure TestState where
  cutoff : Nat
  battery_id : Option BatteryID
  device_name : Option String
  first_reply : Bool
  allow_undercurrent : AllowUndercurrent
deriving DecidableEq, Repr

/-- Models `TestState::default` (`DEFAULT_CUTOFF_MILLIV = 11_000`). -/
def TestState.default : TestState :=
  { cutoff := 11000
    battery_id := none
    device_name := none
    first_reply := false
    allow_undercurrent := .no }

/-- Models `TestState::end_test`: clears `battery_id` and `first_reply`
and touches nothing else. -/
def TestState.end_test (s : TestState) : TestState :=
  { s with battery_id := none, first_reply := false }

def idle_command : BiCommand :=
  { load := .off, reset := .no, clear_fault := .no, allow_undercurrent := .no }

def end_test_command : BiCommand :=
  { load := .off, reset := .yes, clear_fault := .no, allow_undercurrent := .no }

def volts_command : BiCommand :=
  { load := .off, reset := .no, clear_fault := .no, allow_undercurrent := .no }

def testing_command (allow_undercurrent : AllowUndercurrent) : BiCommand :=
  { load := .on, reset := .no, clear_fault := .no, allow_undercurrent }

/-! ### Host serial decoding (battery_tester_pc/src/serial.rs)

`serial_decode` walks the receive buffer with an index: the byte at the
index is a frame length `L`; if `L` further bytes are present the payload
is decoded with `postcard::from_bytes(..).unwrap()` (which ignores bytes
of the slice after a successful decode) and a `ComReply` event is sent;
otherwise the loop stops and the incomplete tail is compacted to the
buffer head (`copy_within` + `truncate`).  The `unwrap` panic on a payload
that fails to decode is the `panicked` constructor, carrying the events
already sent before the panic. -/

inductive DecodeResult
  | ok (events : List Event) (buf : List Nat)
  | panicked (sent : List Event)
deriving DecidableEq, Repr

def serial_decode_loop : List Nat → List Event → DecodeResult
  | [], acc => .ok acc.reverse []
  | l :: rest, acc =>
    if rest.length < l then .ok acc.reverse (l :: rest)
    else
      match decBIReply (rest.take l) with
      | some (r, _) => serial_decode_loop (rest.drop l) (.comReply r :: acc)
      | none => .panicked acc.reverse
termination_by bytes _ => bytes.length
decreasing_by
  simp only [List.length_cons, List.length_drop]
  omega

/-- Models one call of `serial_decode` on the receive buffer. -/
def serial_decode (buf : List Nat) : DecodeResult :=
  serial_decode_loop buf []

/-! ### Host session state machine, `Testing` and end-of-test handlers
(battery_tester_pc/src/server.rs) -/

/-- Output of handling one event in the `testing` loop: the updated
state, the file/serial commands sent, and the mode broken to (`none`
means the loop continues in `Testing`). -/
structure TestingOut where
  state : TestState
  fileCmds : List FileCmd
  comCmds : List ComCmd
  next : Option Mode
deriving DecidableEq, Repr

/-- Models one iteration of the event loop of `testing` (server.rs lines
200-266). -/
def testing_step (s : TestState) : Event → TestingOut
  | .setCutoff mv =>
    { state := { s with cutoff := mv }, fileCmds := [], comCmds := [], next := none }
  | .comReply r =>
    match r.fault with
    | .err _ => { state := s, fileCmds := [], comCmds := [], next := some .fault }
    | .ok =>
      match r.measurement with
      | some m =>
        if s.cutoff < m.vbat then
          { state := s
            fileCmds := [.push { millivolts := m.vbat, milliamps := m.ibat, t := m.t }]
            comCmds := []
            next := none }
        else
          { state := s, fileCmds := [], comCmds := [], next := some .endTest }
      | none => { state := s, fileCmds := [], comCmds := [], next := none }
  | .commDc => { state := s, fileCmds := [], comCmds := [], next := some .commDC }
  | .startTest => { state := s, fileCmds := [], comCmds := [], next := none }
  | .cancelTest => { state := s, fileCmds := [], comCmds := [], next := some .endTest }
  | .shutdown => { state := s, fileCmds := [], comCmds := [], next := some .shutdown }
  | .setSerialDevice _ => { state := s, fileCmds := [], comCmds := [], next := none }
  | .battID _ => { state := s, fileCmds := [], comCmds := [], next := none }
  | .fileError => { state := s, fileCmds := [], comCmds := [], next := some .endTest }
  | .clearFault => { state := s, fileCmds := [], comCmds := [], next := none }
  | .underCurrentResponse a =>
    { state := { s with allow_undercurrent := a }
      fileCmds := []
      comCmds := []
      next := none }

/-- Models the body of `end_test` (server.rs lines 170-184): send the
end-test command, close the file, clear `battery_id`/`first_reply`,
return to `Setup`. -/
def end_test_entry (s : TestState) : TestState × List ComCmd × List FileCmd × Mode :=
  (s.end_test, [.biCommand end_test_command], [.closeFile], .setup)

/-- Models the body of `comm_dc` (server.rs lines 159-168). -/
def comm_dc_entry (s : TestState) : TestState × List FileCmd × Mode :=
  (s.end_test, [.closeFile], .setup)

/-- Models the entry actions of `fault` (server.rs lines 402-416, before
the event loop): idle the BI, close the file, clear
`battery_id`/`first_reply`. -/
def fault_entry (s : TestState) : TestState × List ComCmd × List FileCmd :=
  (s.end_test, [.biCommand idle_command], [.closeFile])

/-! ### Claim C10 -/

/-- C10: the entry actions of `EndTest` (`end_test`), `CommDC` (`comm_dc`)
and `Fault` (`fault`, before its event loop) update `TestState` exactly by
clearing `battery_id` and `first_reply`; the cutoff voltage, the device
name and the allow-undercurrent setting are unchanged, so they persist
across consecutive tests, comm losses and faults. -/
theorem c10_end_actions_frame (s : TestState) :
    (end_test_entry s).1 = { s with battery_id := none, first_reply := false } ∧
    (comm_dc_entry s).1 = { s with battery_id := none, first_reply := false } ∧
    (fault_entry s).1 = { s with battery_id := none, first_reply := false } ∧
    (end_test_entry s).1.cutoff = s.cutoff ∧
    (end_test_entry s).1.device_name = s.device_name ∧
    (end_test_entry s).1.allow_undercurrent = s.allow_undercurrent ∧
    (comm_dc_entry s).1.cutoff = s.cutoff ∧
    (comm_dc_entry s).1.device_name = s.device_name ∧
    (comm_dc_entry s).1.allow_undercurrent = s.allow_undercurrent ∧
    (fault_entry s).1.cutoff = s.cutoff ∧
    (fault_entry s).1.device_name = s.device_name ∧
    (fault_entry s).1.allow_undercurrent = s.allow_undercurrent :=
  ⟨rfl, rfl, rfl, rfl, rfl, rfl, rfl, rfl, rfl, rfl, rfl, rfl⟩

/-! ### Claim C8 -/

/-- C8: in `Testing`, an Ok reply whose measurement has `vbat` strictly
above the cutoff pushes a `SaveData` record to the file task and stays in
`Testing`; an Ok reply with `vbat` at or below the cutoff breaks to
`EndTest`; an Ok reply carrying no measurement stays in `Testing`. -/
theorem c8_testing_reply (s : TestState) (m : Measurement) :
    (s.cutoff < m.vbat →
      testing_step s (.comReply ⟨some m, .ok⟩) =
        { state := s
          fileCmds := [.push { millivolts := m.vbat, milliamps := m.ibat, t := m.t }]
          comCmds := []
          next := none }) ∧
    (m.vbat ≤ s.cutoff →
      testing_step s (.comReply ⟨some m, .ok⟩) =
        { state := s, fileCmds := [], comCmds := [], next := some .endTest }) ∧
    testing_step s (.comReply ⟨none, .ok⟩) =
      { state := s, fileCmds := [], comCmds := [], next := none } := by
  refine ⟨?_, ?_, rfl⟩
  · intro h
    simp [testing_step, if_pos h]
  · intro h
    simp [testing_step, if_neg (by omega : ¬ s.cutoff < m.vbat)]

/-- Witness for C8 at the default state (cutoff 11000): a 12000 mV reading
pushes data, an 11000 mV reading ends the test, a dataless Ok reply keeps
testing. -/
theorem c8_testing_reply_witness :
    testing_step TestState.default (.comReply ⟨some ⟨12000, 500, 77⟩, .ok⟩) =
      { state := TestState.default
        fileCmds := [.push { millivolts := 12000, milliamps := 500, t := 77 }]
        comCmds := []
        next := none } ∧
    testing_step TestState.default (.comReply ⟨some ⟨11000, 500, 77⟩, .ok⟩) =
      { state := TestState.default, fileCmds := [], comCmds := [], next := some .endTest } ∧
    testing_step TestState.default (.comReply ⟨none, .ok⟩) =
      { state := TestState.default, fileCmds := [], comCmds := [], next := none } :=
  ⟨(c8_testing_reply TestState.default ⟨12000, 500, 77⟩).1 (by decide),
   (c8_testing_reply TestState.default ⟨11000, 500, 77⟩).2.1 (by decide),
   (c8_testing_reply TestState.default ⟨11000, 500, 77⟩).2.2⟩

/-! ### Claim C2 -/

/-- C2: when the Running loop's communication-timeout ticker fires (no
command received for 1,250 ms), the step commands the heater OFF, emits no
reply and no fault, stays in the Running loop (`exit = none`), and changes
nothing else; a subsequent command is handled exactly as from any Running
state whose heater is off — there is no recovery step. -/
theorem c2_comm_timeout (s : RunState) (now cnow : Nat) (c : BiCommand) :
    runningStep s (.comTimeout now) =
      { state := { s with pwm := set_cmd s.pwm .off now }
        replies := []
        exit := none } ∧
    (runningStep s (.comTimeout now)).state.pwm.cmd = .off ∧
    (runningStep s (.comTimeout now)).state.measurement = s.measurement ∧
    (runningStep s (.comTimeout now)).state.allow_undercurrent = s.allow_undercurrent ∧
    (runningStep s (.comTimeout now)).state.daq_queue = s.daq_queue ∧
    runningStep (runningStep s (.comTimeout now)).state (.cmdRecv c cnow) =
      runningStep { s with pwm := set_cmd s.pwm .off now } (.cmdRecv c cnow) :=
  ⟨rfl, rfl, rfl, rfl, rfl, rfl⟩

/-! ### Claim C5 -/

/-- C5: evaluation of the watchdog arithmetic at the scenario input
`vbat = 12000`, `ibat = 5000`.  The code computes `R = 12000 / 8400 = 1`
(u16 integer division), so the expected current is 12000 mA — not the
≈8400 mA the claim and the empirical constant intend — and the acceptance
envelope is [11800, 12200] rather than [8200, 8600].  The 5000 mA reading
is below either envelope: `Undercurrent` when undercurrent is not allowed,
accepted without fault when `allow_undercurrent = Yes`. -/
theorem c5_expected_current_eval :
    (12000 / 8400 : Nat) = 1 ∧
    expected_current 12000 = 12000 ∧
    current_in_range 12000 12200 = .ok ∧
    current_in_range 12000 12201 = .hi ∧
    current_in_range 12000 11800 = .ok ∧
    current_in_range 12000 11799 = .lo ∧
    current_in_range 12000 8400 = .lo ∧
    ¬ expected_current 12000 ≤ 8600 ∧
    watchdog ⟨.on, 0⟩ 26 12000 5000 .no = .error .undercurrent ∧
    watchdog ⟨.on, 0⟩ 26 12000 5000 .yes = .ok () := by decide

/-! ### Claim C1 -/

/-- Helper: with a wrap-free envelope (`200 ≤ expected` and
`expected + 200 < 2 ^ 16`), `current_in_range` is the plain three-way
comparison against `expected ± 200`. -/
theorem current_in_range_eq (mv ma : Nat) (hlo : 200 ≤ expected_current mv)
    (hhi : expected_current mv + 200 < 2 ^ 16) :
    current_in_range mv ma =
      (if expected_current mv + 200 < ma then Range.hi
       else if ma < expected_current mv - 200 then Range.lo
       else Range.ok) := by
  have h1 : (expected_current mv + 200) % 2 ^ 16 = expected_current mv + 200 :=
    Nat.mod_eq_of_lt hhi
  have h2 : (expected_current mv + 2 ^ 16 - 200) % 2 ^ 16
      = expected_current mv - 200 := by
    have he : expected_current mv + 2 ^ 16 - 200
        = (expected_current mv - 200) + 2 ^ 16 := by omega
    rw [he, Nat.add_mod_right]
    exact Nat.mod_eq_of_lt (by omega)
  simp only [current_in_range, in_range_inclusive]
  rw [h1, h2]

/-- C1 counterexample: with the heater On, 26 ms after the last change,
`vbat = ibat = 65535`: the measured current equals the expected current
(`expected_current 65535 = 65535`), so the claim's envelope arithmetic
(`ibat > expected + 200`? no; `ibat < expected - 200`? no) predicts Ok,
but the u16 computation of `expected + 200` wraps to 199 and the code
returns `Overcurrent`. -/
theorem c1_watchdog_counterexample :
    watchdog ⟨.on, 0⟩ 26 65535 65535 .no = .error .overcurrent ∧
    expected_current 65535 = 65535 ∧
    ¬ expected_current 65535 + 200 < 65535 ∧
    ¬ (65535 : Nat) < expected_current 65535 - 200 := by decide

/-- C1 (amended): the claim's description of the watchdog holds for every
call made more than 25 ms after the last heater state change, provided
additionally that the envelope arithmetic does not wrap in `u16`:
`200 ≤ expected_current vbat` and `expected_current vbat + 200 < 2 ^ 16`
(the counterexample shows the claim fails outside this range). -/
theorem c1_watchdog (p : PwmCtrl) (now mv ma : Nat) (a : AllowUndercurrent)
    (hdt : 25 < now - p.change_time)
    (hlo : 200 ≤ expected_current mv)
    (hhi : expected_current mv + 200 < 2 ^ 16) :
    (p.cmd = .off → 100 < ma → watchdog p now mv ma a = .error .overcurrent) ∧
    (p.cmd = .off → ma ≤ 100 → watchdog p now mv ma a = .ok ()) ∧
    (p.cmd = .on → expected_current mv + 200 < ma →
      watchdog p now mv ma a = .error .overcurrent) ∧
    (p.cmd = .on → ma < expected_current mv - 200 → a = .no →
      watchdog p now mv ma a = .error .undercurrent) ∧
    (p.cmd = .on → ma < expected_current mv - 200 → a = .yes →
      watchdog p now mv ma a = .ok ()) ∧
    (p.cmd = .on → expected_current mv - 200 ≤ ma →
      ma ≤ expected_current mv + 200 → watchdog p now mv ma a = .ok ()) := by
  have hr := current_in_range_eq mv ma hlo hhi
  refine ⟨?_, ?_, ?_, ?_, ?_, ?_⟩
  · intro hcmd hma
    simp [watchdog, if_pos hdt, hcmd, if_pos hma]
  · intro hcmd hma
    simp [watchdog, if_pos hdt, hcmd, if_neg (by omega : ¬ 100 < ma)]
  · intro hcmd hma
    simp [watchdog, if_pos hdt, hcmd, hr, if_pos hma]
  · intro hcmd hma ha
    simp [watchdog, if_pos hdt, hcmd, hr, ha,
      if_neg (by omega : ¬ expected_current mv + 200 < ma), if_pos hma]
  · intro hcmd hma ha
    simp [watchdog, if_pos hdt, hcmd, hr, ha,
      if_neg (by omega : ¬ expected_current mv + 200 < ma), if_pos hma]
  · intro hcmd hma1 hma2
    simp [watchdog, if_pos hdt, hcmd, hr,
      if_neg (by omega : ¬ expected_current mv + 200 < ma),
      if_neg (by omega : ¬ ma < expected_current mv - 200)]

/-- Witness for C1 at `vbat = 12000` (expected 12000, envelope
[11800, 12200]): 12300 mA trips Overcurrent under load, 150 mA with the
heater off trips Overcurrent, 12000 mA under load is accepted. -/
theorem c1_watchdog_witness :
    watchdog ⟨.on, 0⟩ 26 12000 12300 .no = .error .overcurrent ∧
    watchdog ⟨.off, 0⟩ 26 12000 150 .no = .error .overcurrent ∧
    watchdog ⟨.on, 0⟩ 26 12000 12000 .no = .ok () :=
  ⟨(c1_watchdog ⟨.on, 0⟩ 26 12000 12300 .no (by norm_num) (by decide)
      (by decide)).2.2.1 rfl (by decide),
   (c1_watchdog ⟨.off, 0⟩ 26 12000 150 .no (by norm_num) (by decide)
      (by decide)).1 rfl (by norm_num),
   (c1_watchdog ⟨.on, 0⟩ 26 12000 12000 .no (by norm_num) (by decide)
      (by decide)).2.2.2.2.2 rfl (by decide) (by decide)⟩

/-! ### Claim C6 -/

/-- C6: the postcard encoding round-trips: decoding an encoded `BiCommand`
or (well-formed, i.e. fields within their `u16`/`u64` ranges) `BIReply`
returns the original value consuming all bytes; every byte string that is
a valid encoding (the encoding of some value) reproduces itself after a
decode/encode cycle; and every encoded `BiCommand` or `BIReply` is at most
255 bytes long, fitting the one-byte frame-length prefix. -/
theorem c6_wire_roundtrip :
    (∀ c : BiCommand, decBiCommand (encBiCommand c) = some (c, [])) ∧
    (∀ r : BIReply, wfBIReply r → decBIReply (encBIReply r) = some (r, [])) ∧
    (∀ bs : List Nat, (∃ c : BiCommand, encBiCommand c = bs) →
      ∃ c, decBiCommand bs = some (c, []) ∧ encBiCommand c = bs) ∧
    (∀ bs : List Nat, (∃ r : BIReply, wfBIReply r ∧ encBIReply r = bs) →
      ∃ r, decBIReply bs = some (r, []) ∧ encBIReply r = bs) ∧
    (∀ c : BiCommand, (encBiCommand c).length ≤ 255) ∧
    (∀ r : BIReply, wfBIReply r → (encBIReply r).length ≤ 255) := by
  have hc : ∀ c : BiCommand, decBiCommand (encBiCommand c) = some (c, []) := by
    intro c
    have := decBiCommand_enc c []
    simpa using this
  have hr : ∀ r : BIReply, wfBIReply r → decBIReply (encBIReply r) = some (r, []) := by
    intro r hwf
    have := decBIReply_enc r hwf []
    simpa using this
  refine ⟨hc, hr, ?_, ?_, ?_, ?_⟩
  · rintro bs ⟨c, rfl⟩
    exact ⟨c, hc c, rfl⟩
  · rintro bs ⟨r, hwf, rfl⟩
    exact ⟨r, hr r hwf, rfl⟩
  · intro c
    have := encBiCommand_length c
    omega
  · intro r hwf
    have := encBIReply_length r hwf
    omega

/-- Witness for C6: concrete round trips of a command and of a reply
carrying both a measurement and a fault, plus their length bounds. -/
theorem c6_wire_roundtrip_witness :
    decBiCommand (encBiCommand ⟨.on, .no, .yes, .yes⟩) =
      some (⟨.on, .no, .yes, .yes⟩, []) ∧
    decBIReply (encBIReply
        ⟨some ⟨12000, 8400, 123456⟩, .err ⟨.i2c (.inaVinVoltage .dataNack), 99⟩⟩) =
      some (⟨some ⟨12000, 8400, 123456⟩, .err ⟨.i2c (.inaVinVoltage .dataNack), 99⟩⟩, []) ∧
    (encBIReply
        ⟨some ⟨12000, 8400, 123456⟩, .err ⟨.i2c (.inaVinVoltage .dataNack), 99⟩⟩).length ≤ 255 :=
  ⟨c6_wire_roundtrip.1 ⟨.on, .no, .yes, .yes⟩,
   c6_wire_roundtrip.2.1
     ⟨some ⟨12000, 8400, 123456⟩, .err ⟨.i2c (.inaVinVoltage .dataNack), 99⟩⟩
     (by norm_num [wfBIReply, wfOptMeasurement, wfMeasurement, wfFaultStatus, wfFault]),
   c6_wire_roundtrip.2.2.2.2.2
     ⟨some ⟨12000, 8400, 123456⟩, .err ⟨.i2c (.inaVinVoltage .dataNack), 99⟩⟩
     (by norm_num [wfBIReply, wfOptMeasurement, wfMeasurement, wfFaultStatus, wfFault])⟩

/-! ### Claims C7 and C9: the host frame decoder -/

theorem serial_decode_loop_nil (acc : List Event) :
    serial_decode_loop [] acc = .ok acc.reverse [] := by
  rw [serial_decode_loop]

theorem serial_decode_loop_cons (l : Nat) (rest : List Nat) (acc : List Event) :
    serial_decode_loop (l :: rest) acc =
      (if rest.length < l then .ok acc.reverse (l :: rest)
      else
        match decBIReply (rest.take l) with
        | some (r, _) => serial_decode_loop (rest.drop l) (.comReply r :: acc)
        | none => .panicked acc.reverse) := by
  rw [serial_decode_loop]

/-- Helper: the decoding loop consumes a run of complete frames whose
payloads decode, accumulating one `ComReply` per frame, and continues on
the remaining bytes. -/
theorem serial_decode_loop_append :
    ∀ (frames : List (List Nat)) (replies : List BIReply) (rest : List Nat)
      (acc : List Event),
      frames.map (fun f => (decBIReply f).map Prod.fst) = replies.map some →
      serial_decode_loop ((frames.map (fun f => f.length :: f)).flatten ++ rest) acc =
        serial_decode_loop rest ((replies.map Event.comReply).reverse ++ acc) := by
  intro frames
  induction frames with
  | nil =>
    intro replies rest acc h
    have hrep : replies = [] := by
      cases replies with
      | nil => rfl
      | cons a l => simp at h
    subst hrep
    simp
  | cons f fs ih =>
    intro replies rest acc h
    cases replies with
    | nil => simp at h
    | cons r rs =>
      simp only [List.map_cons, List.cons.injEq] at h
      obtain ⟨h1, h2⟩ := h
      obtain ⟨⟨r', c⟩, hdec, hfst⟩ := Option.map_eq_some'.mp h1
      simp only at hfst
      subst hfst
      simp only [List.map_cons, List.flatten_cons, List.cons_append,
        List.append_assoc]
      rw [serial_decode_loop_cons]
      rw [if_neg (by simp)]
      rw [List.take_left, hdec]
      simp only [List.drop_left]
      rw [ih rs rest (.comReply r' :: acc) h2]
      congr 1
      simp

/-- C7: one call of the host decoder on a buffer holding `K` complete
frames with decodable payloads followed by a partial frame (empty, or a
length byte `L` with fewer than `L` payload bytes) emits exactly the `K`
replies as `ComReply` events in stream order and leaves exactly the
partial frame, compacted to the buffer head. -/
theorem c7_serial_decode (frames : List (List Nat)) (replies : List BIReply)
    (tail : List Nat)
    (hmatch : frames.map (fun f => (decBIReply f).map Prod.fst) = replies.map some)
    (_hframe : ∀ f ∈ frames, f.length ≤ 255)
    (htail : tail = [] ∨ ∃ L t, tail = L :: t ∧ t.length < L) :
    serial_decode ((frames.map (fun f => f.length :: f)).flatten ++ tail) =
      .ok (replies.map Event.comReply) tail := by
  rw [serial_decode, serial_decode_loop_append frames replies tail [] hmatch]
  rcases htail with rfl | ⟨L, t, rfl, ht⟩
  · rw [serial_decode_loop_nil]
    simp
  · rw [serial_decode_loop_cons, if_pos ht]
    simp

/-- Witness for C7: two frames (a dataless Ok reply `[0, 0]` and an Ok
reply with measurement `[1, 1, 2, 3, 0]`) followed by the partial frame
`[5, 9]`. -/
theorem c7_serial_decode_witness :
    serial_decode [2, 0, 0, 5, 1, 1, 2, 3, 0, 5, 9] =
      .ok [Event.comReply ⟨none, .ok⟩,
           Event.comReply ⟨some ⟨1, 2, 3⟩, .ok⟩] [5, 9] := by
  have := c7_serial_decode [[0, 0], [1, 1, 2, 3, 0]]
    [⟨none, .ok⟩, ⟨some ⟨1, 2, 3⟩, .ok⟩] [5, 9]
    (by decide) (by decide) (Or.inr ⟨5, [9], rfl, by norm_num⟩)
  simpa using this

/-- C9 counterexample: the buffer `[1, 170]` holds one complete frame
whose single payload byte 170 is not a valid `BIReply` encoding (neither
option tag).  The decoder's `unwrap` panics: the call produces no event at
all — in particular it does not terminate the session with a `CommDc`
event, which is only ever sent by the serial task on I/O errors. -/
theorem c9_decode_counterexample :
    serial_decode [1, 170] = .panicked [] ∧
    ∀ (events : List Event) (leftover : List Nat),
      DecodeResult.panicked ([] : List Event) ≠ .ok events leftover := by
  constructor
  · rw [serial_decode, serial_decode_loop_cons]
    have hd : decBIReply [170] = none := by decide
    simp [hd]
  · intro events leftover h
    cases h

/-- C9 (amended): when the decoder reaches a complete frame whose payload
is not a valid `BIReply` encoding, the `unwrap` on the failed decode
panics the decoding task: the events already emitted for the preceding
frames stand, no further event is produced, and no `CommDc` event is
emitted (the session is not terminated with a `CommDc` event). -/
theorem c9_decode_panics (frames : List (List Nat)) (replies : List BIReply)
    (bad junk : List Nat)
    (hmatch : frames.map (fun f => (decBIReply f).map Prod.fst) = replies.map some)
    (hbad : decBIReply bad = none) :
    serial_decode
        ((frames.map (fun f => f.length :: f)).flatten ++ (bad.length :: (bad ++ junk))) =
      .panicked (replies.map Event.comReply) ∧
    Event.commDc ∉ replies.map Event.comReply := by
  constructor
  · rw [serial_decode,
      serial_decode_loop_append frames replies (bad.length :: (bad ++ junk)) []
        (by simpa using hmatch)]
    rw [serial_decode_loop_cons]
    rw [if_neg (by simp [List.length_append])]
    rw [List.take_left, hbad]
    simp
  · simp [List.mem_map]

/-- Witness for C9: one good frame then the bad frame `[1, 170]` and a
trailing junk byte; the good frame's reply is emitted, then the panic. -/
theorem c9_decode_panics_witness :
    serial_decode [2, 0, 0, 1, 170, 7] =
      .panicked [Event.comReply ⟨none, .ok⟩] ∧
    Event.commDc ∉ [Event.comReply (⟨none, .ok⟩ : BIReply)] := by
  have := c9_decode_panics [[0, 0]] [⟨none, .ok⟩] [170] [7] (by decide) (by decide)
  simpa using this

/-! ### Claim C3: what precedes re-initialisation after a fault -/

/-- Acknowledgement of a latched fault, as `wait_fault_clear` accepts it:
a command with `clear_fault = Yes` (in either inner phase), or the 1000 ms
hold tick while the pressed fault-clear button is being debounced. -/
def fcAck (s : FCState) (e : PFEvent) : Prop :=
  (∃ c, e = .cmd c ∧ c.clear_fault = .yes) ∨ (s = .debounce ∧ e = .tick1000)

theorem pfRun_append (fault : Fault) (p : PFPhase) (t1 t2 : List PFEvent) :
    pfRun fault p (t1 ++ t2) = pfRun fault (pfRun fault p t1) t2 := by
  induction t1 generalizing p with
  | nil => rfl
  | cons e t ih => exact ih (pfStep fault p e)

theorem pfRun_init_absorb (fault : Fault) (t : List PFEvent) :
    pfRun fault .initI2C t = .initI2C := by
  induction t with
  | nil => rfl
  | cons e t ih => simp [pfRun, pfStep]; exact ih

/-- Phases whose inner machine is not already in its `done` state; all
phases reachable from the start of the post-fault sequence are good. -/
def goodPhase : PFPhase → Prop
  | .clearing .done => False
  | .waiting .done => False
  | _ => True

theorem goodPhase_step (fault : Fault) (p : PFPhase) (e : PFEvent)
    (hp : goodPhase p) : goodPhase (pfStep fault p e) := by
  cases p with
  | clearing s =>
    cases s with
    | listen =>
      cases e with
      | cmd c => cases hcf : c.clear_fault <;> simp [pfStep, fcStep, hcf, goodPhase]
      | _ => simp [pfStep, fcStep, goodPhase]
    | debounce =>
      cases e with
      | cmd c => cases hcf : c.clear_fault <;> simp [pfStep, fcStep, hcf, goodPhase]
      | _ => simp [pfStep, fcStep, goodPhase]
    | done => exact absurd hp (by simp [goodPhase])
  | waiting s =>
    cases s with
    | waitHigh => cases e <;> simp [pfStep, wbStep, goodPhase]
    | debounce => cases e <;> simp [pfStep, wbStep, goodPhase]
    | done => exact absurd hp (by simp [goodPhase])
  | initI2C => simp [pfStep, goodPhase]

theorem goodPhase_run (fault : Fault) (p : PFPhase) (t : List PFEvent)
    (hp : goodPhase p) : goodPhase (pfRun fault p t) := by
  induction t generalizing p with
  | nil => exact hp
  | cons e t ih => exact ih _ (goodPhase_step fault p e hp)

/-- Helper: a step into `initI2C` from a good non-`initI2C` phase happens
exactly from the battery debounce with the 250 ms tick. -/
theorem step_to_init (fault : Fault) (p : PFPhase) (e : PFEvent)
    (hgood : goodPhase p) (hp : p ≠ .initI2C)
    (h : pfStep fault p e = .initI2C) :
    p = .waiting .debounce ∧ e = .tick250 := by
  cases p with
  | clearing s =>
    exfalso
    rcases hfc : (fcStep fault s e).1 with _ | _ | _ <;>
      simp [pfStep, hfc] at h
  | waiting s =>
    cases s with
    | waitHigh =>
      exfalso
      cases e <;> simp [pfStep, wbStep] at h
    | debounce =>
      refine ⟨rfl, ?_⟩
      cases e <;> simp [pfStep, wbStep] at h ⊢
    | done => exact absurd hgood (by simp [goodPhase])
  | initI2C => exact absurd rfl hp

/-- Helper: a step out of the fault-clearing phase happens exactly when
`wait_fault_clear` completes, and lands in `wait_bat_present`'s initial
state. -/
theorem step_out_of_clearing (fault : Fault) (s : FCState) (e : PFEvent)
    (p' : PFPhase) (h : pfStep fault (.clearing s) e = p')
    (hne : ∀ s', p' ≠ .clearing s') :
    (fcStep fault s e).1 = .done ∧ p' = .waiting .waitHigh := by
  rcases hfc : (fcStep fault s e).1 with _ | _ | _ <;>
    simp only [pfStep, hfc] at h
  · exact absurd h.symm (hne .listen)
  · exact absurd h.symm (hne .debounce)
  · exact ⟨rfl, h.symm⟩

/-- Helper: `wait_fault_clear` completes exactly on an acknowledgement
event. -/
theorem fcStep_done_ack (fault : Fault) (s : FCState) (e : PFEvent)
    (hs : s ≠ .done) (h : (fcStep fault s e).1 = .done) : fcAck s e := by
  cases s with
  | listen =>
    cases e with
    | cmd c =>
      cases hcf : c.clear_fault with
      | no => simp [fcStep, hcf] at h
      | yes => exact Or.inl ⟨c, rfl, hcf⟩
    | _ => simp [fcStep] at h
  | debounce =>
    cases e with
    | cmd c =>
      cases hcf : c.clear_fault with
      | no => simp [fcStep, hcf] at h
      | yes => exact Or.inl ⟨c, rfl, hcf⟩
    | tick1000 => exact Or.inr ⟨rfl, rfl⟩
    | _ => simp [fcStep] at h
  | done => exact absurd rfl hs

/-- Helper: splitting a run that reaches `initI2C` at the step that enters
it. -/
theorem reach_init_split (fault : Fault) :
    ∀ (t : List PFEvent) (p : PFPhase), p ≠ .initI2C →
      pfRun fault p t = .initI2C →
      ∃ t1 e t2, t = t1 ++ e :: t2 ∧
        pfRun fault p t1 ≠ .initI2C ∧
        pfStep fault (pfRun fault p t1) e = .initI2C := by
  intro t
  induction t with
  | nil =>
    intro p hp h
    exact absurd h hp
  | cons e t ih =>
    intro p hp h
    by_cases h1 : pfStep fault p e = .initI2C
    · exact ⟨[], e, t, rfl, hp, h1⟩
    · obtain ⟨t1, e', t2, heq, hne, hstep⟩ := ih (pfStep fault p e) h1 h
      exact ⟨e :: t1, e', t2, by rw [heq]; rfl, by simpa [pfRun] using hne,
        by simpa [pfRun] using hstep⟩

/-- Helper: splitting a run from a clearing phase that reaches a waiting
phase at the step that leaves clearing. -/
theorem reach_waiting_split (fault : Fault) :
    ∀ (t : List PFEvent) (s : FCState) (w : WBState),
      pfRun fault (.clearing s) t = .waiting w →
      ∃ t1 e t2 fcs, t = t1 ++ e :: t2 ∧
        pfRun fault (.clearing s) t1 = .clearing fcs ∧
        (fcStep fault fcs e).1 = .done ∧
        pfRun fault (.waiting .waitHigh) t2 = .waiting w := by
  intro t
  induction t with
  | nil =>
    intro s w h
    simp [pfRun] at h
  | cons e t ih =>
    intro s w h
    rcases hp : pfStep fault (.clearing s) e with fcs' | ws' | _
    · obtain ⟨t1, e', t2, fcs2, heq, hrun, hdone, hrest⟩ := ih fcs' w
        (by rw [pfRun, hp] at h; exact h)
      refine ⟨e :: t1, e', t2, fcs2, ?_, ?_, hdone, hrest⟩
      · rw [heq]; rfl
      · show pfRun fault (pfStep fault (.clearing s) e) t1 = _
        rw [hp]; exact hrun
    · obtain ⟨hdone, hw⟩ := step_out_of_clearing fault s e _ hp (by simp)
      cases hw
      exact ⟨[], e, t, s, rfl, rfl, hdone, by rw [pfRun, hp] at h; exact h⟩
    · rw [pfRun, hp, pfRun_init_absorb] at h
      cases h

/-- C3 counterexample: from the post-fault waiting phase, the trace
"command with clear_fault = Yes, battery observed high, 250 ms debounce
tick" reaches `InitI2C` although the battery is never disconnected (no
`batLow` event occurs), refuting the claim's requirement that the battery
be disconnected and reconnected before re-initialisation. -/
theorem c3_reconnect_counterexample :
    pfRun ⟨.overcurrent, 0⟩ (.clearing .listen)
      [.cmd ⟨.off, .no, .yes, .no⟩, .batHigh, .tick250] = .initI2C ∧
    PFEvent.batLow ∉
      [PFEvent.cmd ⟨.off, .no, .yes, .no⟩, PFEvent.batHigh, PFEvent.tick250] := by
  constructor
  · rfl
  · decide

/-- C3 (amended): after a fault is latched, sensor re-initialisation
(`InitI2C`) begins only after (1) the fault is acknowledged — the
fault-clear button held through the 1000 ms debounce, or a command with
`clear_fault = Yes` — and (2) the battery-present input is subsequently
observed high and stays connected through the 250 ms debounce tick.  A
disconnect/reconnect cycle is not required on this path (that requirement
belongs to the reset path, `wait_bat_reconnect`). -/
theorem c3_reinit_order (fault : Fault) (t : List PFEvent)
    (h : pfRun fault (.clearing .listen) t = .initI2C) :
    ∃ t1 e1 t2 e2 t3 fcs,
      t = t1 ++ e1 :: (t2 ++ e2 :: t3) ∧
      pfRun fault (.clearing .listen) t1 = .clearing fcs ∧
      fcAck fcs e1 ∧
      pfRun fault (.clearing .listen) (t1 ++ [e1]) = .waiting .waitHigh ∧
      pfRun fault (.clearing .listen) (t1 ++ e1 :: t2) = .waiting .debounce ∧
      e2 = .tick250 ∧
      pfRun fault (.clearing .listen) (t1 ++ e1 :: (t2 ++ [e2])) = .initI2C := by
  obtain ⟨ta, e2, tb, heq, hne, hstep⟩ :=
    reach_init_split fault t (.clearing .listen) (by simp) h
  have hgood : goodPhase (pfRun fault (.clearing .listen) ta) :=
    goodPhase_run fault _ ta (by simp [goodPhase])
  obtain ⟨hP, he2⟩ := step_to_init fault _ e2 hgood hne hstep
  obtain ⟨t1, e1, t2, fcs, hta, hrun1, hdone, hrest⟩ :=
    reach_waiting_split fault ta .listen .debounce hP
  have hgood1 : goodPhase (pfRun fault (.clearing .listen) t1) :=
    goodPhase_run fault _ t1 (by simp [goodPhase])
  have hfcs : fcs ≠ .done := by
    intro hc
    rw [hrun1, hc] at hgood1
    simp [goodPhase] at hgood1
  have hack := fcStep_done_ack fault fcs e1 hfcs hdone
  have hstep1 : pfRun fault (.clearing .listen) (t1 ++ [e1])
      = .waiting .waitHigh := by
    rw [pfRun_append, hrun1]
    simp [pfRun, pfStep, hdone]
  have hmid : pfRun fault (.clearing .listen) (t1 ++ e1 :: t2)
      = .waiting .debounce := by
    have : t1 ++ e1 :: t2 = (t1 ++ [e1]) ++ t2 := by simp
    rw [this, pfRun_append, hstep1, hrest]
  refine ⟨t1, e1, t2, e2, tb, fcs, ?_, hrun1, hack, hstep1, hmid, he2, ?_⟩
  · rw [heq, hta]
    simp
  · have : t1 ++ e1 :: (t2 ++ [e2]) = (t1 ++ e1 :: t2) ++ [e2] := by simp
    rw [this, pfRun_append, hmid, he2]
    rfl

/-- Witness for C3 (amended) on the concrete acknowledgement-then-debounce
trace of the counterexample's shape. -/
theorem c3_reinit_order_witness :
    ∃ t1 e1 t2 e2 t3 fcs,
      ([PFEvent.cmd ⟨.off, .no, .yes, .no⟩, PFEvent.batHigh, PFEvent.tick250]
          : List PFEvent) = t1 ++ e1 :: (t2 ++ e2 :: t3) ∧
      pfRun ⟨.overcurrent, 0⟩ (.clearing .listen) t1 = .clearing fcs ∧
      fcAck fcs e1 ∧
      pfRun ⟨.overcurrent, 0⟩ (.clearing .listen) (t1 ++ [e1])
        = .waiting .waitHigh ∧
      pfRun ⟨.overcurrent, 0⟩ (.clearing .listen) (t1 ++ e1 :: t2)
        = .waiting .debounce ∧
      e2 = .tick250 ∧
      pfRun ⟨.overcurrent, 0⟩ (.clearing .listen) (t1 ++ e1 :: (t2 ++ [e2]))
        = .initI2C :=
  c3_reinit_order ⟨.overcurrent, 0⟩
    [.cmd ⟨.off, .no, .yes, .no⟩, .batHigh, .tick250] rfl

/-! ### Claim C4: the DAQ ring buffer over a sequence of pushes

A push input is the triple `(milliamps, millivolts, now)` of the two
sampled values and the instant of the call. -/

def pushAll (q : DaqDataQueue) :
    List (Nat × Nat × Nat) → DaqDataQueue × List (Option (Nat × Nat × Nat))
  | [] => (q, [])
  | x :: xs =>
    let r := q.push x.1 x.2.1 x.2.2
    let rest := pushAll r.1 xs
    (rest.1, r.2 :: rest.2)

theorem pushAll_append (q : DaqDataQueue) (xs ys : List (Nat × Nat × Nat)) :
    pushAll q (xs ++ ys) =
      ((pushAll (pushAll q xs).1 ys).1,
        (pushAll q xs).2 ++ (pushAll (pushAll q xs).1 ys).2) := by
  induction xs generalizing q with
  | nil => simp [pushAll]
  | cons x xs ih => simp [pushAll, ih]

theorem pushAll_length (q : DaqDataQueue) (xs : List (Nat × Nat × Nat)) :
    (pushAll q xs).2.length = xs.length := by
  induction xs generalizing q with
  | nil => rfl
  | cons x xs ih => simp [pushAll, ih]

theorem push_mid (q : DaqDataQueue) (a v n : Nat) (h9 : q.index ≠ 9) :
    (q.push a v n).1.index = q.index + 1 ∧
    (q.push a v n).1.milliamps = q.milliamps.set q.index a ∧
    (q.push a v n).1.millivolts = q.millivolts.set q.index v ∧
    (q.push a v n).2 = none := by
  by_cases h0 : q.index = 0 <;> simp [DaqDataQueue.push, h9, h0]

/-- Pushes that stay strictly inside a batch return `none` and advance the
index by one each. -/
theorem pushAll_mid (xs : List (Nat × Nat × Nat)) :
    ∀ q : DaqDataQueue, q.milliamps.length = 10 → q.millivolts.length = 10 →
      q.index + xs.length ≤ 9 →
      (pushAll q xs).1.index = q.index + xs.length ∧
      (pushAll q xs).1.milliamps.length = 10 ∧
      (pushAll q xs).1.millivolts.length = 10 ∧
      (pushAll q xs).2 = List.replicate xs.length none := by
  induction xs with
  | nil => intro q h1 h2 _h3; exact ⟨by simp [pushAll], h1, h2, rfl⟩
  | cons x xs ih =>
    intro q h1 h2 h3
    simp only [List.length_cons] at h3
    obtain ⟨hi, ha, hv, ho⟩ := push_mid q x.1 x.2.1 x.2.2 (by omega)
    obtain ⟨ih1, ih2, ih3, ih4⟩ := ih (q.push x.1 x.2.1 x.2.2).1
      (by rw [ha]; simpa using h1) (by rw [hv]; simpa using h2)
      (by rw [hi]; omega)
    refine ⟨?_, ih2, ih3, ?_⟩
    · simp only [pushAll]
      rw [ih1, hi]
      simp only [List.length_cons]
      omega
    · simp only [pushAll]
      rw [ho, ih4]
      simp only [List.length_cons, List.replicate_succ]

set_option maxHeartbeats 1000000 in
/-- A full batch of ten pushes starting at index 0: the first nine return
`none`, the tenth returns the floor means of the batch's ten samples and
the timestamp `(now₁₀ + now₁) / 2`, where `now₁` was recorded as `start`
during the push of the batch's first sample; the index returns to 0. -/
theorem pushAll_batch (q : DaqDataQueue) (xs : List (Nat × Nat × Nat))
    (h0 : q.index = 0) (hma : q.milliamps.length = 10)
    (hmv : q.millivolts.length = 10) (hlen : xs.length = 10)
    (hb : ∀ x ∈ xs, x.1 < 2 ^ 16 ∧ x.2.1 < 2 ^ 16 ∧ x.2.2 < 2 ^ 63) :
    (pushAll q xs).1.index = 0 ∧
    (pushAll q xs).1.milliamps.length = 10 ∧
    (pushAll q xs).1.millivolts.length = 10 ∧
    (pushAll q xs).2 =
      List.replicate 9 none ++
        [some ((xs.map (fun x => x.2.1)).sum / 10,
               (xs.map (fun x => x.1)).sum / 10,
               ((xs.getD 9 (0, 0, 0)).2.2 + (xs.getD 0 (0, 0, 0)).2.2) / 2)] := by
  rcases xs with _ | ⟨⟨a0, v0, n0⟩, xs⟩; · simp at hlen
  rcases xs with _ | ⟨⟨a1, v1, n1⟩, xs⟩; · simp at hlen
  rcases xs with _ | ⟨⟨a2, v2, n2⟩, xs⟩; · simp at hlen
  rcases xs with _ | ⟨⟨a3, v3, n3⟩, xs⟩; · simp at hlen
  rcases xs with _ | ⟨⟨a4, v4, n4⟩, xs⟩; · simp at hlen
  rcases xs with _ | ⟨⟨a5, v5, n5⟩, xs⟩; · simp at hlen
  rcases xs with _ | ⟨⟨a6, v6, n6⟩, xs⟩; · simp at hlen
  rcases xs with _ | ⟨⟨a7, v7, n7⟩, xs⟩; · simp at hlen
  rcases xs with _ | ⟨⟨a8, v8, n8⟩, xs⟩; · simp at hlen
  rcases xs with _ | ⟨⟨a9, v9, n9⟩, xs⟩; · simp at hlen
  have hnil : xs = [] := by simpa using hlen
  subst hnil
  obtain ⟨qi, qs, qma, qmv⟩ := q
  dsimp only at h0 hma hmv
  subst h0
  rcases qma with _ | ⟨c0, qma⟩; · simp at hma
  rcases qma with _ | ⟨c1, qma⟩; · simp at hma
  rcases qma with _ | ⟨c2, qma⟩; · simp at hma
  rcases qma with _ | ⟨c3, qma⟩; · simp at hma
  rcases qma with _ | ⟨c4, qma⟩; · simp at hma
  rcases qma with _ | ⟨c5, qma⟩; · simp at hma
  rcases qma with _ | ⟨c6, qma⟩; · simp at hma
  rcases qma with _ | ⟨c7, qma⟩; · simp at hma
  rcases qma with _ | ⟨c8, qma⟩; · simp at hma
  rcases qma with _ | ⟨c9, qma⟩; · simp at hma
  have hnil2 : qma = [] := by simpa using hma
  subst hnil2
  rcases qmv with _ | ⟨d0, qmv⟩; · simp at hmv
  rcases qmv with _ | ⟨d1, qmv⟩; · simp at hmv
  rcases qmv with _ | ⟨d2, qmv⟩; · simp at hmv
  rcases qmv with _ | ⟨d3, qmv⟩; · simp at hmv
  rcases qmv with _ | ⟨d4, qmv⟩; · simp at hmv
  rcases qmv with _ | ⟨d5, qmv⟩; · simp at hmv
  rcases qmv with _ | ⟨d6, qmv⟩; · simp at hmv
  rcases qmv with _ | ⟨d7, qmv⟩; · simp at hmv
  rcases qmv with _ | ⟨d8, qmv⟩; · simp at hmv
  rcases qmv with _ | ⟨d9, qmv⟩; · simp at hmv
  have hnil3 : qmv = [] := by simpa using hmv
  subst hnil3
  simp only [List.mem_cons, List.not_mem_nil, or_false, forall_eq_or_imp,
    forall_eq] at hb
  obtain ⟨⟨hba0, hbv0, hbn0⟩, ⟨hba1, hbv1, hbn1⟩, ⟨hba2, hbv2, hbn2⟩,
    ⟨hba3, hbv3, hbn3⟩, ⟨hba4, hbv4, hbn4⟩, ⟨hba5, hbv5, hbn5⟩,
    ⟨hba6, hbv6, hbn6⟩, ⟨hba7, hbv7, hbn7⟩, ⟨hba8, hbv8, hbn8⟩,
    ⟨hba9, hbv9, hbn9⟩⟩ := hb
  have e0 : DaqDataQueue.push
      ⟨0, qs, [c0, c1, c2, c3, c4, c5, c6, c7, c8, c9],
        [d0, d1, d2, d3, d4, d5, d6, d7, d8, d9]⟩ a0 v0 n0 =
      (⟨1, n0, [a0, c1, c2, c3, c4, c5, c6, c7, c8, c9],
        [v0, d1, d2, d3, d4, d5, d6, d7, d8, d9]⟩, none) := rfl
  have e1 : DaqDataQueue.push
      ⟨1, n0, [a0, c1, c2, c3, c4, c5, c6, c7, c8, c9],
        [v0, d1, d2, d3, d4, d5, d6, d7, d8, d9]⟩ a1 v1 n1 =
      (⟨2, n0, [a0, a1, c2, c3, c4, c5, c6, c7, c8, c9],
        [v0, v1, d2, d3, d4, d5, d6, d7, d8, d9]⟩, none) := rfl
  have e2 : DaqDataQueue.push
      ⟨2, n0, [a0, a1, c2, c3, c4, c5, c6, c7, c8, c9],
        [v0, v1, d2, d3, d4, d5, d6, d7, d8, d9]⟩ a2 v2 n2 =
      (⟨3, n0, [a0, a1, a2, c3, c4, c5, c6, c7, c8, c9],
        [v0, v1, v2, d3, d4, d5, d6, d7, d8, d9]⟩, none) := rfl
  have e3 : DaqDataQueue.push
      ⟨3, n0, [a0, a1, a2, c3, c4, c5, c6, c7, c8, c9],
        [v0, v1, v2, d3, d4, d5, d6, d7, d8, d9]⟩ a3 v3 n3 =
      (⟨4, n0, [a0, a1, a2, a3, c4, c5, c6, c7, c8, c9],
        [v0, v1, v2, v3, d4, d5, d6, d7, d8, d9]⟩, none) := rfl
  have e4 : DaqDataQueue.push
      ⟨4, n0, [a0, a1, a2, a3, c4, c5, c6, c7, c8, c9],
        [v0, v1, v2, v3, d4, d5, d6, d7, d8, d9]⟩ a4 v4 n4 =
      (⟨5, n0, [a0, a1, a2, a3, a4, c5, c6, c7, c8, c9],
        [v0, v1, v2, v3, v4, d5, d6, d7, d8, d9]⟩, none) := rfl
  have e5 : DaqDataQueue.push
      ⟨5, n0, [a0, a1, a2, a3, a4, c5, c6, c7, c8, c9],
        [v0, v1, v2, v3, v4, d5, d6, d7, d8, d9]⟩ a5 v5 n5 =
      (⟨6, n0, [a0, a1, a2, a3, a4, a5, c6, c7, c8, c9],
        [v0, v1, v2, v3, v4, v5, d6, d7, d8, d9]⟩, none) := rfl
  have e6 : DaqDataQueue.push
      ⟨6, n0, [a0, a1, a2, a3, a4, a5, c6, c7, c8, c9],
        [v0, v1, v2, v3, v4, v5, d6, d7, d8, d9]⟩ a6 v6 n6 =
      (⟨7, n0, [a0, a1, a2, a3, a4, a5, a6, c7, c8, c9],
        [v0, v1, v2, v3, v4, v5, v6, d7, d8, d9]⟩, none) := rfl
  have e7 : DaqDataQueue.push
      ⟨7, n0, [a0, a1, a2, a3, a4, a5, a6, c7, c8, c9],
        [v0, v1, v2, v3, v4, v5, v6, d7, d8, d9]⟩ a7 v7 n7 =
      (⟨8, n0, [a0, a1, a2, a3, a4, a5, a6, a7, c8, c9],
        [v0, v1, v2, v3, v4, v5, v6, v7, d8, d9]⟩, none) := rfl
  have e8 : DaqDataQueue.push
      ⟨8, n0, [a0, a1, a2, a3, a4, a5, a6, a7, c8, c9],
        [v0, v1, v2, v3, v4, v5, v6, v7, d8, d9]⟩ a8 v8 n8 =
      (⟨9, n0, [a0, a1, a2, a3, a4, a5, a6, a7, a8, c9],
        [v0, v1, v2, v3, v4, v5, v6, v7, v8, d9]⟩, none) := rfl
  have e9 : DaqDataQueue.push
      ⟨9, n0, [a0, a1, a2, a3, a4, a5, a6, a7, a8, c9],
        [v0, v1, v2, v3, v4, v5, v6, v7, v8, d9]⟩ a9 v9 n9 =
      (⟨0, n0, [a0, a1, a2, a3, a4, a5, a6, a7, a8, a9],
        [v0, v1, v2, v3, v4, v5, v6, v7, v8, v9]⟩,
       some
        (DaqDataQueue.avg_millivolts
          ⟨0, n0, [a0, a1, a2, a3, a4, a5, a6, a7, a8, a9],
            [v0, v1, v2, v3, v4, v5, v6, v7, v8, v9]⟩,
         DaqDataQueue.avg_milliamps
          ⟨0, n0, [a0, a1, a2, a3, a4, a5, a6, a7, a8, a9],
            [v0, v1, v2, v3, v4, v5, v6, v7, v8, v9]⟩,
         (n9 + n0) % 2 ^ 64 / 2)) := rfl
  have hq : pushAll
      ⟨0, qs, [c0, c1, c2, c3, c4, c5, c6, c7, c8, c9],
        [d0, d1, d2, d3, d4, d5, d6, d7, d8, d9]⟩
      [(a0, v0, n0), (a1, v1, n1), (a2, v2, n2), (a3, v3, n3), (a4, v4, n4),
       (a5, v5, n5), (a6, v6, n6), (a7, v7, n7), (a8, v8, n8), (a9, v9, n9)] =
      (⟨0, n0, [a0, a1, a2, a3, a4, a5, a6, a7, a8, a9],
        [v0, v1, v2, v3, v4, v5, v6, v7, v8, v9]⟩,
       [none, none, none, none, none, none, none, none, none,
        some
          (DaqDataQueue.avg_millivolts
            ⟨0, n0, [a0, a1, a2, a3, a4, a5, a6, a7, a8, a9],
              [v0, v1, v2, v3, v4, v5, v6, v7, v8, v9]⟩,
           DaqDataQueue.avg_milliamps
            ⟨0, n0, [a0, a1, a2, a3, a4, a5, a6, a7, a8, a9],
              [v0, v1, v2, v3, v4, v5, v6, v7, v8, v9]⟩,
           (n9 + n0) % 2 ^ 64 / 2)]) := by
    simp only [pushAll, e0, e1, e2, e3, e4, e5, e6, e7, e8, e9]
  refine ⟨by rw [hq], by rw [hq]; rfl, by rw [hq]; rfl, ?_⟩
  rw [hq]
  have hmv9 :
      DaqDataQueue.avg_millivolts
        ⟨0, n0, [a0, a1, a2, a3, a4, a5, a6, a7, a8, a9],
          [v0, v1, v2, v3, v4, v5, v6, v7, v8, v9]⟩
      = (([(a0, v0, n0), (a1, v1, n1), (a2, v2, n2), (a3, v3, n3), (a4, v4, n4),
          (a5, v5, n5), (a6, v6, n6), (a7, v7, n7), (a8, v8, n8),
          (a9, v9, n9)].map (fun x => x.2.1)).sum) / 10 := by
    simp only [DaqDataQueue.avg_millivolts, List.foldr_cons, List.foldr_nil,
      List.map_cons, List.map_nil, List.sum_cons, List.sum_nil]
    omega
  have hma9 :
      DaqDataQueue.avg_milliamps
        ⟨0, n0, [a0, a1, a2, a3, a4, a5, a6, a7, a8, a9],
          [v0, v1, v2, v3, v4, v5, v6, v7, v8, v9]⟩
      = (([(a0, v0, n0), (a1, v1, n1), (a2, v2, n2), (a3, v3, n3), (a4, v4, n4),
          (a5, v5, n5), (a6, v6, n6), (a7, v7, n7), (a8, v8, n8),
          (a9, v9, n9)].map (fun x => x.1)).sum) / 10 := by
    simp only [DaqDataQueue.avg_milliamps, List.foldr_cons, List.foldr_nil,
      List.map_cons, List.map_nil, List.sum_cons, List.sum_nil]
    omega
  have hts : (n9 + n0) % 2 ^ 64 / 2 = (n9 + n0) / 2 := by omega
  rw [hmv9, hma9, hts]
  rfl

/-- State invariant after any number of complete batches from the default
queue: index back at 0, both rings still of length 10. -/
theorem pushAll_batches_state (inputs : List (Nat × Nat × Nat))
    (hb : ∀ x ∈ inputs, x.1 < 2 ^ 16 ∧ x.2.1 < 2 ^ 16 ∧ x.2.2 < 2 ^ 63) :
    ∀ m, 10 * m ≤ inputs.length →
      (pushAll DaqDataQueue.default_const (inputs.take (10 * m))).1.index = 0 ∧
      (pushAll DaqDataQueue.default_const (inputs.take (10 * m))).1.milliamps.length = 10 ∧
      (pushAll DaqDataQueue.default_const (inputs.take (10 * m))).1.millivolts.length = 10 := by
  intro m
  induction m with
  | zero => intro _; refine ⟨rfl, rfl, rfl⟩
  | succ m ih =>
    intro hlen
    obtain ⟨ih1, ih2, ih3⟩ := ih (by omega)
    have hsplit : inputs.take (10 * (m + 1)) =
        inputs.take (10 * m) ++ (inputs.drop (10 * m)).take 10 := by
      rw [show 10 * (m + 1) = 10 * m + 10 by ring]
      exact List.take_add inputs (10 * m) 10
    have hyslen : ((inputs.drop (10 * m)).take 10).length = 10 := by
      simp only [List.length_take, List.length_drop]
      omega
    have hybs : ∀ x ∈ (inputs.drop (10 * m)).take 10,
        x.1 < 2 ^ 16 ∧ x.2.1 < 2 ^ 16 ∧ x.2.2 < 2 ^ 63 :=
      fun x hx => hb x (List.mem_of_mem_drop (List.mem_of_mem_take hx))
    rw [hsplit, pushAll_append]
    obtain ⟨b1, b2, b3, _⟩ := pushAll_batch _ _ ih1 ih2 ih3 hyslen hybs
    exact ⟨b1, b2, b3⟩

/-- Reading the output stream inside the block of batch `m`: position
`10 m + j` of the whole output equals position `j` of the run that starts
at the state reached after `m` complete batches. -/
theorem pushAll_getD_block (inputs : List (Nat × Nat × Nat)) (m j : Nat)
    (hn : 10 * m + j < inputs.length) :
    (pushAll DaqDataQueue.default_const inputs).2.getD (10 * m + j) none =
      (pushAll (pushAll DaqDataQueue.default_const (inputs.take (10 * m))).1
        (inputs.drop (10 * m))).2.getD j none := by
  have hlen1 : (pushAll DaqDataQueue.default_const (inputs.take (10 * m))).2.length
      = 10 * m := by
    rw [pushAll_length]
    simp only [List.length_take]
    omega
  have houts : (pushAll DaqDataQueue.default_const inputs).2 =
      (pushAll DaqDataQueue.default_const (inputs.take (10 * m))).2 ++
      (pushAll (pushAll DaqDataQueue.default_const (inputs.take (10 * m))).1
        (inputs.drop (10 * m))).2 := by
    conv_lhs => rw [(List.take_append_drop (10 * m) inputs).symm]
    rw [pushAll_append]
  rw [houts, List.getD_eq_getElem?_getD, List.getD_eq_getElem?_getD,
    List.getElem?_append_right (by rw [hlen1]; omega), hlen1,
    show 10 * m + j - 10 * m = j from by omega]

/-- Mid-batch positions of the output stream hold `none`. -/
theorem pushAll_getD_mid (inputs : List (Nat × Nat × Nat))
    (hb : ∀ x ∈ inputs, x.1 < 2 ^ 16 ∧ x.2.1 < 2 ^ 16 ∧ x.2.2 < 2 ^ 63)
    (m j : Nat) (hj : j ≤ 8) (hn : 10 * m + j < inputs.length) :
    (pushAll DaqDataQueue.default_const inputs).2.getD (10 * m + j) none = none := by
  rw [pushAll_getD_block inputs m j hn]
  obtain ⟨hq1i, hq1a, hq1v⟩ := pushAll_batches_state inputs hb m (by omega)
  have htk : ((inputs.drop (10 * m)).take (j + 1)).length = j + 1 := by
    simp only [List.length_take, List.length_drop]
    omega
  obtain ⟨_, _, _, hmid⟩ := pushAll_mid ((inputs.drop (10 * m)).take (j + 1))
    (pushAll DaqDataQueue.default_const (inputs.take (10 * m))).1 hq1a hq1v
    (by rw [hq1i, htk]; omega)
  have hA : (pushAll (pushAll DaqDataQueue.default_const (inputs.take (10 * m))).1
      ((inputs.drop (10 * m)).take (j + 1))).2.length = j + 1 := by
    rw [pushAll_length, htk]
  conv_lhs => rw [(List.take_append_drop (j + 1) (inputs.drop (10 * m))).symm]
  rw [pushAll_append, List.getD_eq_getElem?_getD,
    List.getElem?_append_left (by rw [hA]; omega), hmid, htk,
    List.getElem?_replicate_of_lt (by omega)]
  rfl

/-- The value emitted at the tenth position of batch `m`. -/
theorem pushAll_getD_batch_end (inputs : List (Nat × Nat × Nat))
    (hb : ∀ x ∈ inputs, x.1 < 2 ^ 16 ∧ x.2.1 < 2 ^ 16 ∧ x.2.2 < 2 ^ 63)
    (m : Nat) (hn : 10 * m + 9 < inputs.length) :
    (pushAll DaqDataQueue.default_const inputs).2.getD (10 * m + 9) none =
      some ((((inputs.drop (10 * m)).take 10).map (fun x => x.2.1)).sum / 10,
            (((inputs.drop (10 * m)).take 10).map (fun x => x.1)).sum / 10,
            ((((inputs.drop (10 * m)).take 10).getD 9 (0, 0, 0)).2.2 +
              (((inputs.drop (10 * m)).take 10).getD 0 (0, 0, 0)).2.2) / 2) := by
  rw [pushAll_getD_block inputs m 9 hn]
  obtain ⟨hq1i, hq1a, hq1v⟩ := pushAll_batches_state inputs hb m (by omega)
  have h10 : ((inputs.drop (10 * m)).take 10).length = 10 := by
    simp only [List.length_take, List.length_drop]
    omega
  have hybs : ∀ x ∈ (inputs.drop (10 * m)).take 10,
      x.1 < 2 ^ 16 ∧ x.2.1 < 2 ^ 16 ∧ x.2.2 < 2 ^ 63 :=
    fun x hx => hb x (List.mem_of_mem_drop (List.mem_of_mem_take hx))
  obtain ⟨_, _, _, hbat⟩ := pushAll_batch
    (pushAll DaqDataQueue.default_const (inputs.take (10 * m))).1
    ((inputs.drop (10 * m)).take 10) hq1i hq1a hq1v h10 hybs
  have hA : (pushAll (pushAll DaqDataQueue.default_const (inputs.take (10 * m))).1
      ((inputs.drop (10 * m)).take 10)).2.length = 10 := by
    rw [pushAll_length, h10]
  conv_lhs => rw [(List.take_append_drop 10 (inputs.drop (10 * m))).symm]
  rw [pushAll_append, List.getD_eq_getElem?_getD,
    List.getElem?_append_left (by rw [hA]; omega), hbat,
    List.getElem?_append_right (by simp), List.length_replicate]
  rfl

/-- C4: over any sequence of pushes into a default `DaqDataQueue` (with
`u16` sample values and `u64` timestamps below `2 ^ 63`), push returns
`Some` exactly on every 10th push and `None` on all others; the emitted
voltage and current are the integer (floor) means of that batch's ten
samples; the emitted timestamp is `(now + batch_start) / 2` where
`batch_start` is the `now` recorded during the push of the batch's first
sample; and the write index stays within `[0, 9]` after every prefix. -/
theorem c4_push_stream (inputs : List (Nat × Nat × Nat))
    (hb : ∀ x ∈ inputs, x.1 < 2 ^ 16 ∧ x.2.1 < 2 ^ 16 ∧ x.2.2 < 2 ^ 63) :
    ((pushAll DaqDataQueue.default_const inputs).2.length = inputs.length) ∧
    (∀ n, n < inputs.length →
      (((pushAll DaqDataQueue.default_const inputs).2.getD n none).isSome ↔
        (n + 1) % 10 = 0)) ∧
    (∀ m, 10 * m + 9 < inputs.length →
      (pushAll DaqDataQueue.default_const inputs).2.getD (10 * m + 9) none =
        some ((((inputs.drop (10 * m)).take 10).map (fun x => x.2.1)).sum / 10,
              (((inputs.drop (10 * m)).take 10).map (fun x => x.1)).sum / 10,
              ((inputs.getD (10 * m + 9) (0, 0, 0)).2.2 +
                (inputs.getD (10 * m) (0, 0, 0)).2.2) / 2)) ∧
    (∀ k, k ≤ inputs.length →
      (pushAll DaqDataQueue.default_const (inputs.take k)).1.index ≤ 9) := by
  refine ⟨pushAll_length _ _, ?_, ?_, ?_⟩
  · intro n hn
    obtain ⟨m, j, hj, rfl⟩ : ∃ m j, j ≤ 9 ∧ n = 10 * m + j :=
      ⟨n / 10, n % 10, by omega, by omega⟩
    by_cases h9 : j = 9
    · subst h9
      rw [pushAll_getD_batch_end inputs hb m hn]
      simp only [Option.isSome_some, true_iff]
      omega
    · rw [pushAll_getD_mid inputs hb m j (by omega) hn]
      simp only [Option.isSome_none, Bool.false_eq_true, false_iff]
      omega
  · intro m hm
    rw [pushAll_getD_batch_end inputs hb m hm]
    have h9 : ((inputs.drop (10 * m)).take 10).getD 9 (0, 0, 0)
        = inputs.getD (10 * m + 9) (0, 0, 0) := by
      rw [List.getD_eq_getElem?_getD, List.getD_eq_getElem?_getD,
        List.getElem?_take_of_lt (by norm_num), List.getElem?_drop]
    have h0 : ((inputs.drop (10 * m)).take 10).getD 0 (0, 0, 0)
        = inputs.getD (10 * m) (0, 0, 0) := by
      rw [List.getD_eq_getElem?_getD, List.getD_eq_getElem?_getD,
        List.getElem?_take_of_lt (by norm_num), List.getElem?_drop,
        Nat.add_zero]
    rw [h9, h0]
  · intro k hk
    obtain ⟨m, j, hj, rfl⟩ : ∃ m j, j ≤ 9 ∧ k = 10 * m + j :=
      ⟨k / 10, k % 10, by omega, by omega⟩
    obtain ⟨hq1i, hq1a, hq1v⟩ := pushAll_batches_state inputs hb m (by omega)
    have hsplit : inputs.take (10 * m + j) =
        inputs.take (10 * m) ++ (inputs.drop (10 * m)).take j :=
      List.take_add inputs (10 * m) j
    have htk : ((inputs.drop (10 * m)).take j).length ≤ 9 := by
      simp only [List.length_take, List.length_drop]
      omega
    obtain ⟨hidx, _, _, _⟩ := pushAll_mid ((inputs.drop (10 * m)).take j) _
      hq1a hq1v (by rw [hq1i]; omega)
    rw [hsplit, pushAll_append, hidx, hq1i]
    omega

/-- Witness for C4 on a concrete 12-push input stream: the 10th push emits
the floor means (1004 mV, 4 mA) and timestamp (900 + 0) / 2 = 450; the 4th
push emits nothing; the index is still in range after 7 pushes. -/
theorem c4_push_stream_witness :
    (pushAll DaqDataQueue.default_const
        [(0, 1000, 0), (1, 1001, 100), (2, 1002, 200), (3, 1003, 300),
         (4, 1004, 400), (5, 1005, 500), (6, 1006, 600), (7, 1007, 700),
         (8, 1008, 800), (9, 1009, 900), (50, 50, 1000),
         (60, 60, 1100)]).2.getD 9 none = some (1004, 4, 450) ∧
    (((pushAll DaqDataQueue.default_const
        [(0, 1000, 0), (1, 1001, 100), (2, 1002, 200), (3, 1003, 300),
         (4, 1004, 400), (5, 1005, 500), (6, 1006, 600), (7, 1007, 700),
         (8, 1008, 800), (9, 1009, 900), (50, 50, 1000),
         (60, 60, 1100)]).2.getD 3 none).isSome ↔ (3 + 1) % 10 = 0) ∧
    (pushAll DaqDataQueue.default_const
        ([(0, 1000, 0), (1, 1001, 100), (2, 1002, 200), (3, 1003, 300),
          (4, 1004, 400), (5, 1005, 500), (6, 1006, 600), (7, 1007, 700),
          (8, 1008, 800), (9, 1009, 900), (50, 50, 1000),
          (60, 60, 1100)].take 7)).1.index ≤ 9 := by
  have h := c4_push_stream
    [(0, 1000, 0), (1, 1001, 100), (2, 1002, 200), (3, 1003, 300),
     (4, 1004, 400), (5, 1005, 500), (6, 1006, 600), (7, 1007, 700),
     (8, 1008, 800), (9, 1009, 900), (50, 50, 1000), (60, 60, 1100)]
    (by decide)
  refine ⟨?_, h.2.1 3 (by norm_num), h.2.2.2 7 (by norm_num)⟩
  have h9 := h.2.2.1 0 (by norm_num)
  rw [show 10 * 0 + 9 = 9 from rfl] at h9
  rw [h9]
  decide

end BatteryTester
